import Mathlib

/-!
# Verification of the spotify-uris merge engine

Shallow embedding of the merge engine of the `spotify-uris` repository:
the policy-driven entity upsert (`sql_templates.build_set`,
`sql_templates.generate_entity_upsert`), the association reconciliation
(`sql_templates._generate_artist_associations`), the placeholder-entity
creation (`generate_missing_artists_sql`), the staging-index creation
(`load_csv_engine.CSVLoader.create_staging_indexes`), the merge-transaction
control flow (`load_csv_engine.CSVLoader.load`), and the predictive
association statistics (`stats/association_changes.analyze_association_changes`).

SQL values are modelled as `Option String` (NULL = `none`); tables as lists
of rows; the generated set-based statements as executable Lean functions on
those lists.
-/

namespace SpotifyUris

/-! ## Column conflict resolution (`sql_templates.build_set`, lines 23-61)

`build_set` emits one SQL `SET` assignment per covered column.  The value the
assignment stores is modelled by `resolveColumn mode col existing incoming`,
where `existing` is the current value (`entity.col`) and `incoming` is the
staged value (`EXCLUDED.col`).  SQL three-valued logic matters for
`prefer_longer`: `length(NULL)` is NULL, a comparison involving NULL is not
true, and the `CASE` then falls to its `ELSE` branch (the existing value). -/

/-- `prefer_non_null` branch:
`CASE WHEN entity.col IS NOT NULL THEN entity.col ELSE EXCLUDED.col END`. -/
def resolvePreferNonNull (existing incoming : Option String) : Option String :=
  match existing with
  | some v => some v
  | none => incoming

/-- `prefer_longer` branch:
`CASE WHEN length(EXCLUDED.col) > length(entity.col) THEN EXCLUDED.col ELSE entity.col END`.
If either side is NULL the comparison is not true and the existing value is kept. -/
def resolvePreferLonger (existing incoming : Option String) : Option String :=
  match incoming, existing with
  | some i, some e => if e.length < i.length then some i else some e
  | _, _ => existing

/-- Value stored for a column after the upsert's `ON CONFLICT DO UPDATE SET`
clause, by policy mode.  A mode that matches no branch of `build_set` (and the
`extend` mode on a column other than `genres`) emits no assignment, so the
existing value is kept.  The `genres` `extend` branch concatenates the two
text arrays (`COALESCE(old,ARRAY[]) || COALESCE(new,ARRAY[])`); array values
are modelled as opaque texts and the concatenation as text concatenation of
the two encodings. -/
def resolveColumn (mode col : String) (existing incoming : Option String) : Option String :=
  if mode = "prefer_incoming" then incoming
  else if mode = "prefer_non_null" then resolvePreferNonNull existing incoming
  else if mode = "prefer_longer" then resolvePreferLonger existing incoming
  else if mode = "extend" ∧ col = "genres" then
    some (existing.getD "" ++ incoming.getD "")
  else existing

/-! ## Policy lookup (`sql_templates.get_policy`, lines 9-21) -/

/-- A per-entity policy: entity name ↦ (column name ↦ conflict mode). -/
abbrev PolicyMap := List (String × List (String × String))

/-- Columns present in each entity's CSV batch. -/
abbrev CsvColumns := List (String × List String)

/-- `get_policy`: raises `ValueError` when the entity has no policy map entry;
otherwise keeps only the entries whose column is present in this CSV. -/
def get_policy (entity : String) (csv_columns : CsvColumns) (config_policy : PolicyMap) :
    Except String (List (String × String)) :=
  match config_policy.lookup entity with
  | none => .error ("No policy defined for entity: " ++ entity)
  | some entity_policy =>
    let entity_csv_columns := (csv_columns.lookup entity).getD []
    .ok (entity_policy.filter (fun p => decide (p.1 ∈ entity_csv_columns)))

/-- Entity-specific optional columns (`generate_entity_upsert`, lines 70-74). -/
def optional_cols (entity : String) : List String :=
  if entity = "artists" then ["genres"]
  else if entity = "albums" then
    ["album_type", "spotify_release_date", "release_date_precision", "n_tracks"]
  else if entity = "tracks" then
    ["duration_ms", "explicit", "disc_number", "track_number"]
  else []

/-- Columns the upsert inserts and updates
(`generate_entity_upsert`, lines 67-77). -/
def updatable_cols (entity : String) (csvCols : List String) : List String :=
  (["name", "mbid", "spotify_uri"].filter (fun c => decide (c ∈ csvCols))) ++
    ((optional_cols entity).filter (fun c => decide (c ∈ csvCols)))

/-- The `(column, mode)` assignments `build_set` emits (lines 33-49): a column
is covered only if it is in the CSV; its mode is looked up in the filtered
policy **with silent default `prefer_incoming`** (`policy.get(col,
"prefer_incoming")`, line 37); a mode matching no branch (or `extend` on a
non-`genres` column) emits no assignment.  The unconditional
`source_name`/`ingested_at` assignments are modelled separately in
`applySet`. -/
def build_set_entries (csv_cols : List String) (policy : List (String × String))
    (cols : List String) : List (String × String) :=
  cols.filterMap (fun col =>
    if col ∈ csv_cols then
      if ((policy.lookup col).getD "prefer_incoming") = "prefer_incoming" ∨
          ((policy.lookup col).getD "prefer_incoming") = "prefer_non_null" ∨
          ((policy.lookup col).getD "prefer_incoming") = "prefer_longer" ∨
          (((policy.lookup col).getD "prefer_incoming") = "extend" ∧ col = "genres") then
        some (col, (policy.lookup col).getD "prefer_incoming")
      else none
    else none)

def build_set_modes (entity : String) (cols : List String) (csv_columns : CsvColumns)
    (config_policy : PolicyMap) : Except String (List (String × String)) := do
  let policy ← get_policy entity csv_columns config_policy
  .ok (build_set_entries ((csv_columns.lookup entity).getD []) policy cols)

/-! ## Association reconciliation policy check
(`sql_templates._generate_artist_associations`, lines 208-224 and 302-303) -/

/-- The two explicit policy checks before any association SQL is produced:
entity must have a policy map entry and it must contain an `artists` entry. -/
def associationPolicyLookup (entity : String) (policy : PolicyMap) : Except String String :=
  match policy.lookup entity with
  | none => .error ("Association data found for " ++ entity ++ " but no policy defined for " ++
      entity ++ ". Define a policy or remove association data from CSV.")
  | some ep =>
    match ep.lookup "artists" with
    | none => .error ("Association data found for " ++ entity ++ " but no artists policy defined for " ++
        entity ++ ". Define a policy for " ++ entity ++ ".artists or remove association data from CSV.")
    | some p => .ok p

/-- Which association branch runs; an unrecognised mode raises `ValueError`
(line 303). -/
def associationBranch (entity : String) (policy : PolicyMap) : Except String String := do
  let p ← associationPolicyLookup entity policy
  if p = "prefer_incoming" ∨ p = "extend" ∨ p = "prefer_non_null" then .ok p
  else .error ("Unknown association policy: " ++ p ++ " for entity " ++ entity)

/-! ## Association reconciliation data model

The three generated statements (`_generate_artist_associations`,
lines 227-301) act on the owning-entity table, the `artists` table, the
association table (PK `(entity_id, artist_id)`, integer `position`) and the
staging table.  The staged column `artist_spotify_uris` is a text holding an
ordered list of artist URIs; the SQL reads it through
`unnest(string_to_array(trim(both braces from it), ','))` paired with
`generate_series` positions.  We model the column at the parsed level:
`none` stands for SQL NULL or the empty text (both excluded by the
`IS NOT NULL AND != ''` guard), `some L` for a parsed list (possibly empty,
as the text consisting only of braces parses to an empty array). -/

/-- A row of the `artists` table, as the association SQL sees it. -/
structure ArtistRow where
  id : Nat
  spotify_uri : Option String
  name : Option String
deriving DecidableEq

/-- A row of the owning-entity table (`albums` / `tracks`). -/
structure EntityRow where
  id : Nat
  spotify_uri : Option String
deriving DecidableEq

/-- A staging row as the association SQL sees it: the entity URI and the
parsed artist URI list. -/
structure AStagingRow where
  uri : Option String
  artist_uris : Option (List String)
deriving DecidableEq

/-- A row of the association table (`album_artists` / `track_artists`). -/
structure Assoc where
  entity_id : Nat
  artist_id : Nat
  position : Int
deriving DecidableEq

/-- `JOIN artists ar ON ar.spotify_uri = artist_uri`: the id of the matching
artist row, if any (the `spotify_uri` column carries a unique constraint, so
`find?` returns the unique match). -/
def resolveArtist (artists : List ArtistRow) (u : String) : Option Nat :=
  (artists.find? (fun a => decide (a.spotify_uri = some u))).map (fun a => a.id)

/-- `JOIN entity e ON e.spotify_uri = s.spotify_uri`: SQL equality matches
only non-NULL equal values. -/
def matchedEntities (entities : List EntityRow) (s : AStagingRow) : List EntityRow :=
  entities.filter (fun e =>
    match s.uri with
    | some u => decide (e.spotify_uri = some u)
    | none => false)

/-- `unnest(...) , generate_series(1, ...)` zipped: list elements paired with
their position, starting at `n` (the SQL uses 1-based `pos` and stores
`pos - 1`; we index from 0 directly). -/
def posIndexed {α : Type} (n : Nat) : List α → List (Nat × α)
  | [] => []
  | u :: us => (n, u) :: posIndexed (n + 1) us

/-- One candidate association row from a positioned artist URI:
`(e.id, ar.id, pos - 1)`, dropped when no artist row matches the URI. -/
def assocOfPos (artists : List ArtistRow) (eid : Nat) (p : Nat × String) : Option Assoc :=
  (resolveArtist artists p.2).map (fun aid => ⟨eid, aid, (p.1 : Int)⟩)

/-- The insert rows of the `prefer_incoming` (spec: `replace`) branch
(lines 238-253): `SELECT DISTINCT e.id, ar.id, pos - 1` over staging rows
with artist data, their matched entities and resolvable artist URIs. -/
def incomingAssocRows (staging : List AStagingRow) (entities : List EntityRow)
    (artists : List ArtistRow) : List Assoc :=
  staging.flatMap (fun s =>
    match s.artist_uris with
    | none => []
    | some L =>
      (matchedEntities entities s).flatMap (fun e =>
        (posIndexed 0 L).filterMap (assocOfPos artists e.id)))

/-- Ids of owning entities whose staged row carries artist data — the
entities whose associations the `replace` DELETE removes (lines 230-236). -/
def replaceTouched (staging : List AStagingRow) (entities : List EntityRow) : List Nat :=
  (staging.filter (fun s => s.artist_uris.isSome)).flatMap
    (fun s => (matchedEntities entities s).map (fun e => e.id))

/-- Association rows the `replace` branch deletes. -/
def deletedByReplace (staging : List AStagingRow) (entities : List EntityRow)
    (assocs : List Assoc) : List Assoc :=
  assocs.filter (fun a => decide (a.entity_id ∈ replaceTouched staging entities))

/-- Association rows the `replace` branch inserts (`SELECT DISTINCT` =
`dedup`). -/
def insertedByReplace (staging : List AStagingRow) (entities : List EntityRow)
    (artists : List ArtistRow) : List Assoc :=
  (incomingAssocRows staging entities artists).dedup

/-- Association table after the `replace` branch: DELETE then INSERT. -/
def replaceResult (staging : List AStagingRow) (entities : List EntityRow)
    (artists : List ArtistRow) (assocs : List Assoc) : List Assoc :=
  assocs.filter (fun a => decide (a.entity_id ∉ replaceTouched staging entities)) ++
    insertedByReplace staging entities artists

/-- `existing.entity_id = e.id AND existing.artist_id = ar.id` match. -/
def assocMember (assocs : List Assoc) (eid aid : Nat) : Bool :=
  assocs.any (fun a => decide (a.entity_id = eid) && decide (a.artist_id = aid))

/-- `COALESCE(MAX(position), -1)` over the entity's current associations
(lines 261, 271-275). -/
def maxPosition (assocs : List Assoc) (eid : Nat) : Int :=
  match (assocs.filter (fun a => decide (a.entity_id = eid))).map (fun a => a.position) with
  | [] => -1
  | p :: ps => ps.foldl max p

/-- The insert rows of the `extend` branch (lines 256-279): incoming pairs
absent from the current set, at position `COALESCE(max,-1) + ROW_NUMBER()`
where the row number ranks the surviving (resolvable, new) artists of the
entity in incoming order.  The SQL's `ROW_NUMBER() OVER (PARTITION BY e.id
ORDER BY pos)` coincides with this per-staging-row ranking whenever each
entity is matched by at most one staged row (the upsert's own precondition on
staging keys). -/
def extendInsertRows (staging : List AStagingRow) (entities : List EntityRow)
    (artists : List ArtistRow) (assocs : List Assoc) : List Assoc :=
  staging.flatMap (fun s =>
    match s.artist_uris with
    | none => []
    | some L =>
      (matchedEntities entities s).flatMap (fun e =>
        let newIds := (L.filterMap (resolveArtist artists)).filter
          (fun aid => !assocMember assocs e.id aid)
        (posIndexed 0 newIds).map
          (fun p => ⟨e.id, p.2, maxPosition assocs e.id + (p.1 : Int) + 1⟩)))

/-- Association table after the `extend` branch: never deletes. -/
def extendResult (staging : List AStagingRow) (entities : List EntityRow)
    (artists : List ArtistRow) (assocs : List Assoc) : List Assoc :=
  assocs ++ (extendInsertRows staging entities artists assocs).dedup

/-- The insert rows of the `prefer_non_null` branch (lines 282-301): like the
incoming rows of `replace`, but guarded per entity by
`NOT EXISTS (SELECT 1 FROM assoc existing WHERE existing.entity_id = e.id)`. -/
def pnnInsertRows (staging : List AStagingRow) (entities : List EntityRow)
    (artists : List ArtistRow) (assocs : List Assoc) : List Assoc :=
  staging.flatMap (fun s =>
    match s.artist_uris with
    | none => []
    | some L =>
      (matchedEntities entities s).flatMap (fun e =>
        if assocs.any (fun a => decide (a.entity_id = e.id)) then []
        else (posIndexed 0 L).filterMap (assocOfPos artists e.id)))

/-- Association table after the `prefer_non_null` branch: never deletes. -/
def pnnResult (staging : List AStagingRow) (entities : List EntityRow)
    (artists : List ArtistRow) (assocs : List Assoc) : List Assoc :=
  assocs ++ (pnnInsertRows staging entities artists assocs).dedup

/-! ## Entity upsert (`sql_templates.generate_entity_upsert`, lines 64-140)

A table row is an association list from column name to nullable value; the
canonical tables keep one entry per schema column.  The generated statement
is `INSERT ... SELECT DISTINCT ... FROM staging ... WHERE (id columns not all
NULL) ON CONFLICT (key) DO UPDATE SET ...`.  PostgreSQL raises
`ON CONFLICT DO UPDATE command cannot affect row a second time` when two
source rows hit the same target row, and NULL key values never conflict; the
executable model reproduces both.  The unique index on the conflict column
guarantees at most one matching target row; updates are modelled by mapping
over all (i.e. the one) matching rows.  The `tracks.album_id` resolution
special case follows the same two conflict modes and is outside the claims
under verification. -/

/-- A table row: column name ↦ nullable value. -/
abbrev Row := List (String × Option String)

/-- Value of a column (NULL when the column is absent from the row). -/
def getCol (r : Row) (c : String) : Option String :=
  match r.lookup c with
  | some v => v
  | none => none

/-- Overwrite a column's value (no-op on columns the row does not carry). -/
def setCol (r : Row) (c : String) (v : Option String) : Row :=
  r.map (fun p => if p.1 = c then (c, v) else p)

/-- A row carries exactly the schema's columns, in schema order. -/
def wellFormed (schema : List String) (r : Row) : Prop :=
  r.map Prod.fst = schema

/-- The `WHERE` clause (lines 119-125): one `IS NOT NULL` disjunct per id
column present in the CSV; with no id column present the clause is empty and
every row passes. -/
def wherePass (csvCols : List String) (s : Row) : Bool :=
  (decide ("spotify_uri" ∈ csvCols) && decide (getCol s "spotify_uri" ≠ none)) ||
  (decide ("mbid" ∈ csvCols) && decide (getCol s "mbid" ≠ none)) ||
  (decide ("spotify_uri" ∉ csvCols) && decide ("mbid" ∉ csvCols))

/-- The conflict column (lines 127-133): `spotify_uri` when present, else
`mbid`, else `ValueError`. -/
def conflictKey (entity : String) (csv_columns : CsvColumns) : Except String String :=
  let cols := (csv_columns.lookup entity).getD []
  if "spotify_uri" ∈ cols then .ok "spotify_uri"
  else if "mbid" ∈ cols then .ok "mbid"
  else .error ("No ID columns (spotify_uri or mbid) found for entity " ++ entity)

/-- Value a column receives in the row proposed for insertion: the staged
value for inserted columns, provenance for the provenance columns, NULL
elsewhere. -/
def mkInsertVal (insertCols : List String) (source timestamp : String) (s : Row)
    (c : String) : Option String :=
  if c = "source_name" then some source
  else if c = "ingested_at" then some timestamp
  else if c ∈ insertCols then getCol s c
  else none

/-- The row proposed for insertion (and visible as `EXCLUDED` on conflict):
the staged value for every inserted column, NULL elsewhere, with provenance
stamped (lines 81-103). -/
def mkInsertRow (schema insertCols : List String) (source timestamp : String) (s : Row) : Row :=
  schema.map (fun c => (c, mkInsertVal insertCols source timestamp s c))

/-- The emitted `SET` assignments applied simultaneously: each assignment
reads the pre-update row (`existing`) and `EXCLUDED` (`incoming`), never the
accumulator. -/
def applyAssignments (setModes : List (String × String)) (existing incoming acc : Row) : Row :=
  setModes.foldl
    (fun acc2 p => setCol acc2 p.1 (resolveColumn p.2 p.1 (getCol existing p.1) (getCol incoming p.1)))
    acc

/-- The `DO UPDATE SET` clause applied to a conflicting row: every emitted
assignment stores `resolveColumn` of the pre-update row and `EXCLUDED`, and
provenance is always overwritten (lines 59-60). -/
def applySet (setModes : List (String × String)) (source timestamp : String)
    (existing incoming : Row) : Row :=
  setCol (setCol (applyAssignments setModes existing incoming existing)
    "source_name" (some source)) "ingested_at" (some timestamp)

/-- Error message PostgreSQL raises when one statement updates a row twice. -/
def affectTwiceMsg : String := "ON CONFLICT DO UPDATE command cannot affect row a second time"

/-- Row-by-row execution of the single upsert statement over the distinct
selected source rows.  `touched` records conflict-key values already affected
by this statement: a second source row with a recorded key aborts the whole
statement.  A NULL key never conflicts and always inserts. -/
def upsertGo (setModes : List (String × String)) (source timestamp key : String) :
    List Row → List String → List Row → Except String (List Row)
  | table, _, [] => .ok table
  | table, touched, r :: rest =>
    match getCol r key with
    | none => upsertGo setModes source timestamp key (table ++ [r]) touched rest
    | some k =>
      if k ∈ touched then .error affectTwiceMsg
      else if table.any (fun m => decide (getCol m key = some k)) then
        upsertGo setModes source timestamp key
          (table.map (fun m =>
            if getCol m key = some k then applySet setModes source timestamp m r else m))
          (k :: touched) rest
      else upsertGo setModes source timestamp key (table ++ [r]) (k :: touched) rest

/-- The distinct selected source rows (`SELECT DISTINCT ... WHERE ...`). -/
def selRows (schema insertCols csvCols : List String) (source timestamp : String)
    (staging : List Row) : List Row :=
  ((staging.filter (wherePass csvCols)).map (mkInsertRow schema insertCols source timestamp)).dedup

/-- The full upsert statement on a canonical table. -/
def upsertRows (schema insertCols csvCols : List String) (setModes : List (String × String))
    (source timestamp key : String) (table staging : List Row) : Except String (List Row) :=
  upsertGo setModes source timestamp key table []
    (selRows schema insertCols csvCols source timestamp staging)

/-- `generate_entity_upsert` end to end: conflict-key choice, `build_set`,
then the statement. -/
def entityUpsert (entity : String) (csv_columns : CsvColumns) (config_policy : PolicyMap)
    (source timestamp : String) (schema : List String) (table staging : List Row) :
    Except String (List Row) := do
  let key ← conflictKey entity csv_columns
  let csvCols := (csv_columns.lookup entity).getD []
  let cols := updatable_cols entity csvCols
  let setModes ← build_set_modes entity cols csv_columns config_policy
  upsertRows schema cols csvCols setModes source timestamp key table staging

/-- At least one of the two identifier columns is non-NULL — the CHECK
constraint `(mbid IS NOT NULL) OR (spotify_uri IS NOT NULL)` of `models.py`. -/
def hasIdentifier (r : Row) : Prop :=
  getCol r "spotify_uri" ≠ none ∨ getCol r "mbid" ≠ none

/-! ## Placeholder artist creation (`generate_missing_artists_sql`, lines 143-170) -/

/-- Artist URIs referenced by staged association lists: non-NULL, non-empty
entries of non-NULL lists (`WHERE ... artist_uri IS NOT NULL AND artist_uri != ''`). -/
def referencedArtistUris (staging : List AStagingRow) : List String :=
  (staging.flatMap (fun s =>
    match s.artist_uris with
    | none => []
    | some L => L.filter (fun u => decide (u ≠ "")))).dedup

/-- Placeholder artist rows inserted for referenced URIs with no existing
artist row: NULL name, the URI as `spotify_uri` (rows get fresh ids). -/
def createMissingArtists (staging : List AStagingRow) (artists : List ArtistRow)
    (freshId : Nat) : List ArtistRow :=
  artists ++ ((posIndexed 0 ((referencedArtistUris staging).filter
      (fun u => decide (resolveArtist artists u = none)))).map
    (fun p => ⟨freshId + p.1, some p.2, none⟩))

/-! ## Staging unique constraints
(`load_csv_engine.CSVLoader.create_staging_indexes`, lines 121-127) -/

/-- Columns of the staging table that receive a UNIQUE constraint after the
bulk load: only `spotify_uri`, and only when present. -/
def stagingUniqueConstraintCols (columns : List String) : List String :=
  if "spotify_uri" ∈ columns then ["spotify_uri"] else []

/-! ## Merge-transaction control flow (`load_csv_engine.CSVLoader.load`,
lines 183-215)

The staging table is loaded and committed before the merge transaction
begins; the merge statements read staging and write only the canonical
tables.  On any statement failure the transaction is rolled back and the
exception re-raised (the failing statement's index is reported); on operator
decline it is rolled back; only an explicit `y` commits. -/

/-- One planned merge statement: a canonical-state transformer that can fail
with a database error message. -/
abbrev MergeOp (σ : Type) : Type := σ → Except String σ

/-- Execute the planned statements in order (`dry_run_stats`, lines 225-232),
tagging a failure with the failing statement's index. -/
def applyOps {σ : Type} : List (MergeOp σ) → Nat → σ → Except (Nat × String) σ
  | [], _, s => .ok s
  | op :: rest, i, s =>
    match op s with
    | .error e => .error (i, e)
    | .ok s' => applyOps rest (i + 1) s'

/-- Database state at the merge phase: canonical tables (abstract) plus the
already-committed staging relation. -/
structure RunState (σ : Type) where
  canonical : σ
  staging : List Row

/-- Outcome of the merge phase. -/
inductive MergeOutcome (σ : Type) where
  | committed (final : σ)
  | rolledBack
  | failed (idx : Nat) (msg : String)
deriving DecidableEq

/-- The merge phase of `CSVLoader.load`: run all statements inside one
transaction; on failure roll back and surface the failure; otherwise ask the
operator and commit or roll back. -/
def loadMergePhase {σ : Type} (ops : List (MergeOp σ)) (confirm : σ → Bool)
    (st : RunState σ) : MergeOutcome σ × RunState σ :=
  match applyOps ops 0 st.canonical with
  | .error ie => (.failed ie.1 ie.2, st)
  | .ok c' => if confirm c' then (.committed c', ⟨c', st.staging⟩) else (.rolledBack, st)

/-! ## Predictive association statistics
(`stats/association_changes.analyze_association_changes`, lines 131-216)

The predictive path compares two URI-pair sets: the current associations of
staged entities and the staged incoming pairs, both as Python sets of
`(entity uri, artist uri)` tuples (either component may be `None`). -/

/-- `current_assocs`: `SELECT DISTINCT s.spotify_uri, ar.spotify_uri FROM
staging JOIN entity JOIN assoc JOIN artists` (lines 147-153, 170-172). -/
def currentAssocPairs (staging : List AStagingRow) (entities : List EntityRow)
    (artists : List ArtistRow) (assocs : List Assoc) : List (Option String × Option String) :=
  (staging.flatMap (fun s =>
    (matchedEntities entities s).flatMap (fun e =>
      (assocs.filter (fun a => decide (a.entity_id = e.id))).filterMap (fun a =>
        (artists.find? (fun ar => decide (ar.id = a.artist_id))).map
          (fun ar => (s.uri, ar.spotify_uri)))))).dedup

/-- `new_assocs`: `SELECT DISTINCT s.spotify_uri, artist_uri FROM staging
CROSS JOIN unnest(...)` with the NULL/empty guards (lines 156-166, 174-177). -/
def newAssocPairs (staging : List AStagingRow) : List (Option String × Option String) :=
  (staging.flatMap (fun s =>
    match s.artist_uris with
    | none => []
    | some L => (L.filter (fun u => decide (u ≠ ""))).map (fun u => (s.uri, some u)))).dedup

/-- Predicted insertion count under the `prefer_non_null` policy
(lines 187-198): when the `current_assocs` set is non-empty — a **global**
check over all staged entities — predict no inserts; otherwise predict the
whole `new_assocs` set. -/
def predictedPnnInserts (staging : List AStagingRow) (entities : List EntityRow)
    (artists : List ArtistRow) (assocs : List Assoc) : Nat :=
  if currentAssocPairs staging entities artists assocs ≠ [] then 0
  else (newAssocPairs staging).length

/-- Predicted deletion count under `prefer_non_null`: always zero. -/
def predictedPnnDeletes (staging : List AStagingRow) (entities : List EntityRow)
    (artists : List ArtistRow) (assocs : List Assoc) : Nat := 0

/-! ## Helper lemmas -/

theorem lookup_filter_none (col : String) (f : String × String → Bool) :
    ∀ ep : List (String × String), ep.lookup col = none → (ep.filter f).lookup col = none := by
  intro ep
  induction ep with
  | nil => intro h; simp
  | cons q qs ih =>
    intro h
    obtain ⟨k, v⟩ := q
    cases hk : (col == k) with
    | true => simp [List.lookup, hk] at h
    | false =>
      have h2 : qs.lookup col = none := by
        simpa [List.lookup, hk] using h
      by_cases hf : f (k, v) = true
      · simp [List.filter_cons, hf, List.lookup, hk, ih h2]
      · simp only [List.filter_cons, hf, Bool.false_eq_true, if_false]
        exact ih h2

theorem assocOfPos_position (artists : List ArtistRow) (eid : Nat) (p : Nat × String)
    (a : Assoc) (h : assocOfPos artists eid p = some a) : a.position = (p.1 : Int) := by
  unfold assocOfPos at h
  cases hr : resolveArtist artists p.2 with
  | none => rw [hr] at h; simp at h
  | some aid => rw [hr] at h; simp at h; rw [← h]

theorem assocOfPos_entity (artists : List ArtistRow) (eid : Nat) (p : Nat × String)
    (a : Assoc) (h : assocOfPos artists eid p = some a) : a.entity_id = eid := by
  unfold assocOfPos at h
  cases hr : resolveArtist artists p.2 with
  | none => rw [hr] at h; simp at h
  | some aid => rw [hr] at h; simp at h; rw [← h]

theorem mem_posIndexed_filterMap_pos {α : Type} (f : Nat × α → Option Assoc) (off : Int)
    (hf : ∀ p a, f p = some a → a.position = (p.1 : Int) + off) (L : List α) :
    ∀ (n : Nat) (a : Assoc), a ∈ (posIndexed n L).filterMap f → (n : Int) + off ≤ a.position := by
  induction L with
  | nil => intro n a h; simp [posIndexed] at h
  | cons u us ih =>
    intro n a h
    simp only [posIndexed, List.filterMap_cons] at h
    cases hfu : f (n, u) with
    | none =>
      rw [hfu] at h
      have := ih (n + 1) a h
      push_cast at this ⊢
      omega
    | some b =>
      rw [hfu] at h
      rcases List.mem_cons.mp h with h1 | h2
      · subst h1
        have := hf (n, u) a hfu
        omega
      · have := ih (n + 1) a h2
        push_cast at this ⊢
        omega

theorem nodup_posIndexed_filterMap {α : Type} (f : Nat × α → Option Assoc) (off : Int)
    (hf : ∀ p a, f p = some a → a.position = (p.1 : Int) + off) (L : List α) :
    ∀ n : Nat, ((posIndexed n L).filterMap f).Nodup := by
  induction L with
  | nil => intro n; simp [posIndexed]
  | cons u us ih =>
    intro n
    simp only [posIndexed, List.filterMap_cons]
    cases hfu : f (n, u) with
    | none => exact ih (n + 1)
    | some b =>
      refine List.nodup_cons.mpr ⟨?_, ih (n + 1)⟩
      intro hb
      have h1 := mem_posIndexed_filterMap_pos f off hf us (n + 1) b hb
      have h2 := hf (n, u) b hfu
      push_cast at h1
      omega

theorem assocOfPos_off (artists : List ArtistRow) (eid : Nat) :
    ∀ (p : Nat × String) (a : Assoc), assocOfPos artists eid p = some a →
      a.position = (p.1 : Int) + 0 := by
  intro p a h
  rw [assocOfPos_position artists eid p a h]
  omega

theorem length_filterMap_assocOfPos (artists : List ArtistRow) (eid : Nat) (L : List String)
    (hres : ∀ u ∈ L, resolveArtist artists u ≠ none) :
    ∀ n : Nat, ((posIndexed n L).filterMap (assocOfPos artists eid)).length = L.length := by
  induction L with
  | nil => intro n; simp [posIndexed]
  | cons u us ih =>
    intro n
    have hu : resolveArtist artists u ≠ none := hres u (List.mem_cons_self u us)
    cases hr : resolveArtist artists u with
    | none => exact absurd hr hu
    | some aid =>
      have hstep : assocOfPos artists eid (n, u) = some ⟨eid, aid, (n : Int)⟩ := by
        simp [assocOfPos, hr]
      simp only [posIndexed, List.filterMap_cons, hstep, List.length_cons]
      rw [ih (fun v hv => hres v (List.mem_cons_of_mem u hv)) (n + 1)]

theorem incomingAssocRows_single (s : AStagingRow) (entities : List EntityRow)
    (artists : List ArtistRow) (e : EntityRow) (L : List String)
    (hL : s.artist_uris = some L) (hm : matchedEntities entities s = [e]) :
    incomingAssocRows [s] entities artists =
      (posIndexed 0 L).filterMap (assocOfPos artists e.id) := by
  simp [incomingAssocRows, hL, hm]

theorem replaceTouched_single (s : AStagingRow) (entities : List EntityRow)
    (e : EntityRow) (L : List String)
    (hL : s.artist_uris = some L) (hm : matchedEntities entities s = [e]) :
    replaceTouched [s] entities = [e.id] := by
  simp [replaceTouched, hL, hm]

theorem getCol_cons_self (c : String) (v : Option String) (r : Row) :
    getCol ((c, v) :: r) c = v := by
  simp [getCol, List.lookup]

theorem getCol_cons_ne (a c : String) (v : Option String) (r : Row) (h : c ≠ a) :
    getCol ((a, v) :: r) c = getCol r c := by
  have hb : (c == a) = false := by simpa using h
  simp [getCol, List.lookup, hb]

theorem setCol_fst (r : Row) (c : String) (v : Option String) :
    (setCol r c v).map Prod.fst = r.map Prod.fst := by
  unfold setCol
  rw [List.map_map]
  refine List.map_congr_left ?_
  intro p hp
  by_cases h : p.1 = c
  · simp [h]
  · simp [h]

theorem wellFormed_setCol {schema : List String} {r : Row} (h : wellFormed schema r)
    (c : String) (v : Option String) : wellFormed schema (setCol r c v) := by
  unfold wellFormed at h ⊢
  rw [setCol_fst]
  exact h

theorem getCol_setCol_self : ∀ (r : Row) (c : String) (v : Option String),
    c ∈ r.map Prod.fst → getCol (setCol r c v) c = v := by
  intro r
  induction r with
  | nil => intro c v h; simp at h
  | cons p rest ih =>
    intro c v h
    by_cases hp : p.1 = c
    · show getCol ((if p.1 = c then (c, v) else p) :: setCol rest c v) c = v
      rw [if_pos hp]
      exact getCol_cons_self c v _
    · have hmem : c ∈ rest.map Prod.fst := by
        simp only [List.map_cons] at h
        rcases List.mem_cons.mp h with h1 | h1
        · exact absurd h1.symm hp
        · exact h1
      show getCol ((if p.1 = c then (c, v) else p) :: setCol rest c v) c = v
      rw [if_neg hp]
      rw [getCol_cons_ne p.1 c p.2 (setCol rest c v) (fun hh => hp hh.symm)]
      exact ih c v hmem

theorem getCol_setCol_ne : ∀ (r : Row) (c c' : String) (v : Option String), c' ≠ c →
    getCol (setCol r c v) c' = getCol r c' := by
  intro r
  induction r with
  | nil => intro c c' v h; rfl
  | cons p rest ih =>
    intro c c' v h
    by_cases hp : p.1 = c
    · show getCol ((if p.1 = c then (c, v) else p) :: setCol rest c v) c' = getCol (p :: rest) c'
      rw [if_pos hp]
      have h2 : c' ≠ p.1 := by rw [hp]; exact h
      rw [getCol_cons_ne c c' v _ h, getCol_cons_ne p.1 c' p.2 rest h2]
      exact ih c c' v h
    · show getCol ((if p.1 = c then (c, v) else p) :: setCol rest c v) c' = getCol (p :: rest) c'
      rw [if_neg hp]
      by_cases hc' : c' = p.1
      · subst hc'
        exact (getCol_cons_self p.1 p.2 _).trans (getCol_cons_self p.1 p.2 rest).symm
      · rw [getCol_cons_ne p.1 c' p.2 _ hc', getCol_cons_ne p.1 c' p.2 rest hc']
        exact ih c c' v h

theorem setCol_not_mem : ∀ (r : Row) (c : String) (v : Option String),
    c ∉ r.map Prod.fst → setCol r c v = r := by
  intro r
  induction r with
  | nil => intro c v _; rfl
  | cons p rest ih =>
    intro c v h
    simp only [List.map_cons, List.mem_cons, not_or] at h
    show (if p.1 = c then (c, v) else p) :: setCol rest c v = p :: rest
    rw [if_neg (fun hh => h.1 hh.symm), ih c v h.2]

theorem setCol_eq_self : ∀ (r : Row) (c : String) (v : Option String),
    (r.map Prod.fst).Nodup → getCol r c = v → setCol r c v = r := by
  intro r
  induction r with
  | nil => intro c v _ _; rfl
  | cons p rest ih =>
    intro c v hnd hv
    simp only [List.map_cons] at hnd
    have hnd' := List.nodup_cons.mp hnd
    by_cases hp : p.1 = c
    · show (if p.1 = c then (c, v) else p) :: setCol rest c v = p :: rest
      rw [if_pos hp]
      have hvv : p.2 = v := by
        rw [← hp] at hv
        rw [getCol_cons_self p.1 p.2 rest] at hv
        exact hv
      have hhead : (c, v) = p := by
        rw [← hp, ← hvv]
      have hnmem : c ∉ rest.map Prod.fst := by rw [← hp]; exact hnd'.1
      rw [hhead, setCol_not_mem rest c v hnmem]
    · show (if p.1 = c then (c, v) else p) :: setCol rest c v = p :: rest
      rw [if_neg hp]
      have hv2 : getCol rest c = v := by
        rw [← getCol_cons_ne p.1 c p.2 rest (fun hh => hp hh.symm)]
        exact hv
      rw [ih c v hnd'.2 hv2]

theorem row_ext : ∀ (schema : List String) (r r' : Row), schema.Nodup →
    wellFormed schema r → wellFormed schema r' →
    (∀ c ∈ schema, getCol r c = getCol r' c) → r = r' := by
  intro schema
  induction schema with
  | nil =>
    intro r r' _ h1 h2 _
    cases r with
    | nil =>
      cases r' with
      | nil => rfl
      | cons q t' => simp [wellFormed] at h2
    | cons p t => simp [wellFormed] at h1
  | cons a as ih =>
    intro r r' hnd h1 h2 hpt
    cases r with
    | nil => simp [wellFormed] at h1
    | cons p t =>
      cases r' with
      | nil => simp [wellFormed] at h2
      | cons q t' =>
        obtain ⟨pa, pb⟩ := p
        obtain ⟨qa, qb⟩ := q
        simp only [wellFormed, List.map_cons, List.cons.injEq] at h1 h2
        obtain ⟨hp1, ht1⟩ := h1
        obtain ⟨hq1, ht2⟩ := h2
        have hnd' := List.nodup_cons.mp hnd
        have hvals : pb = qb := by
          have hv := hpt a (List.mem_cons_self a as)
          rw [hp1, hq1] at hv
          rw [getCol_cons_self a pb t, getCol_cons_self a qb t'] at hv
          exact hv
        have htails : ∀ c ∈ as, getCol t c = getCol t' c := by
          intro c hc
          have hca : c ≠ a := fun hh => hnd'.1 (hh ▸ hc)
          have hv2 := hpt c (List.mem_cons_of_mem a hc)
          rw [hp1, hq1] at hv2
          rw [getCol_cons_ne a c pb t hca, getCol_cons_ne a c qb t' hca] at hv2
          exact hv2
        rw [hp1, hq1, hvals, ih t t' hnd'.2 ht1 ht2 htails]

theorem lookup_eq_none_of_not_mem : ∀ (m : List (String × String)) (c : String),
    c ∉ m.map Prod.fst → m.lookup c = none := by
  intro m
  induction m with
  | nil => intro c _; rfl
  | cons p rest ih =>
    intro c h
    obtain ⟨k, v⟩ := p
    simp only [List.map_cons, List.mem_cons, not_or] at h
    have hb : (c == k) = false := by simpa using h.1
    simp [List.lookup, hb, ih c h.2]

theorem applyAssignments_fst : ∀ (m : List (String × String)) (ex inc acc : Row),
    (applyAssignments m ex inc acc).map Prod.fst = acc.map Prod.fst := by
  intro m
  induction m with
  | nil => intro ex inc acc; rfl
  | cons p rest ih =>
    intro ex inc acc
    show (applyAssignments rest ex inc
      (setCol acc p.1 (resolveColumn p.2 p.1 (getCol ex p.1) (getCol inc p.1)))).map Prod.fst = _
    rw [ih, setCol_fst]

theorem getCol_applyAssignments : ∀ (m : List (String × String)) (ex inc acc : Row)
    (c : String), (m.map Prod.fst).Nodup → (∀ p ∈ m, p.1 ∈ acc.map Prod.fst) →
    getCol (applyAssignments m ex inc acc) c =
      (match m.lookup c with
       | some mode => resolveColumn mode c (getCol ex c) (getCol inc c)
       | none => getCol acc c) := by
  intro m
  induction m with
  | nil => intro ex inc acc c _ _; rfl
  | cons p rest ih =>
    intro ex inc acc c hnd hmem
    obtain ⟨k, mode⟩ := p
    simp only [List.map_cons] at hnd
    have hnd' := List.nodup_cons.mp hnd
    show getCol (applyAssignments rest ex inc
      (setCol acc k (resolveColumn mode k (getCol ex k) (getCol inc k)))) c = _
    rw [ih ex inc _ c hnd'.2 (fun q hq => by
      rw [setCol_fst]
      exact hmem q (List.mem_cons_of_mem _ hq))]
    by_cases hc : c = k
    · subst hc
      rw [lookup_eq_none_of_not_mem rest c hnd'.1]
      have hhead : ((c, mode) :: rest).lookup c = some mode := by
        simp [List.lookup]
      rw [hhead]
      exact getCol_setCol_self acc c _ (hmem (c, mode) (List.mem_cons_self _ _))
    · have hb : (c == k) = false := by simpa using hc
      have hhead : ((k, mode) :: rest).lookup c = rest.lookup c := by
        simp [List.lookup, hb]
      rw [hhead]
      cases hlk : rest.lookup c with
      | some mode2 => rfl
      | none => exact getCol_setCol_ne acc k c _ hc

theorem wellFormed_applySet {schema : List String} {ex : Row} (h : wellFormed schema ex)
    (m : List (String × String)) (src ts : String) (inc : Row) :
    wellFormed schema (applySet m src ts ex inc) := by
  unfold applySet wellFormed at *
  rw [setCol_fst, setCol_fst, applyAssignments_fst]
  exact h

theorem getCol_applySet_ts (m : List (String × String)) (src ts : String) (ex inc : Row)
    (h : "ingested_at" ∈ ex.map Prod.fst) :
    getCol (applySet m src ts ex inc) "ingested_at" = some ts := by
  unfold applySet
  refine getCol_setCol_self _ _ _ ?_
  rw [setCol_fst, applyAssignments_fst]
  exact h

theorem getCol_applySet_src (m : List (String × String)) (src ts : String) (ex inc : Row)
    (h : "source_name" ∈ ex.map Prod.fst) :
    getCol (applySet m src ts ex inc) "source_name" = some src := by
  unfold applySet
  rw [getCol_setCol_ne _ _ _ _ (by decide)]
  refine getCol_setCol_self _ _ _ ?_
  rw [applyAssignments_fst]
  exact h

theorem getCol_applySet_other (m : List (String × String)) (src ts : String) (ex inc : Row)
    (c : String) (h1 : c ≠ "source_name") (h2 : c ≠ "ingested_at")
    (hmnd : (m.map Prod.fst).Nodup) (hcols : ∀ p ∈ m, p.1 ∈ ex.map Prod.fst) :
    getCol (applySet m src ts ex inc) c =
      (match m.lookup c with
       | some mode => resolveColumn mode c (getCol ex c) (getCol inc c)
       | none => getCol ex c) := by
  unfold applySet
  rw [getCol_setCol_ne _ _ _ _ h2, getCol_setCol_ne _ _ _ _ h1]
  exact getCol_applyAssignments m ex inc ex c hmnd hcols

/-- Any conflict mode stores back the common value when the existing and
incoming values agree and are non-NULL (the `genres` array-extend branch
excepted). -/
theorem resolveColumn_same (mode col k : String) (hcol : col ≠ "genres") :
    resolveColumn mode col (some k) (some k) = some k := by
  unfold resolveColumn
  split_ifs with h1 h2 h3 h4
  · rfl
  · simp [resolvePreferNonNull]
  · simp [resolvePreferLonger]
  · exact absurd h4.2 hcol
  · rfl

/-- `prefer_non_null` resolution is idempotent in its stored value. -/
theorem resolvePreferNonNull_idem (a b : Option String) :
    resolvePreferNonNull (resolvePreferNonNull a b) b = resolvePreferNonNull a b := by
  cases a with
  | none => cases b <;> rfl
  | some v => rfl

theorem wellFormed_mkInsertRow (schema insertCols : List String) (src ts : String) (s : Row) :
    wellFormed schema (mkInsertRow schema insertCols src ts s) := by
  unfold wellFormed mkInsertRow
  rw [List.map_map]
  have : ∀ c ∈ schema, (Prod.fst ∘ fun c2 => (c2, mkInsertVal insertCols src ts s c2)) c =
      id c := fun c _ => rfl
  rw [List.map_congr_left this, List.map_id]

theorem getCol_mkInsertRow : ∀ (schema : List String) (insertCols : List String)
    (src ts : String) (s : Row) (c : String), c ∈ schema →
    getCol (mkInsertRow schema insertCols src ts s) c = mkInsertVal insertCols src ts s c := by
  intro schema
  induction schema with
  | nil => intro _ _ _ _ c hc; simp at hc
  | cons a as ih =>
    intro insertCols src ts s c hc
    by_cases hca : c = a
    · subst hca
      exact getCol_cons_self c _ _
    · have hcas : c ∈ as := by
        rcases List.mem_cons.mp hc with h | h
        · exact absurd h hca
        · exact h
      show getCol ((a, mkInsertVal insertCols src ts s a) :: mkInsertRow as insertCols src ts s) c = _
      rw [getCol_cons_ne a c _ _ hca]
      exact ih insertCols src ts s c hcas

theorem getCol_applySet_key (m : List (String × String)) (src ts key k : String)
    (ex inc : Row)
    (hk1 : key ≠ "source_name") (hk2 : key ≠ "ingested_at") (hk3 : key ≠ "genres")
    (hmnd : (m.map Prod.fst).Nodup) (hcols : ∀ p ∈ m, p.1 ∈ ex.map Prod.fst)
    (hex : getCol ex key = some k) (hinc : getCol inc key = some k) :
    getCol (applySet m src ts ex inc) key = some k := by
  rw [getCol_applySet_other m src ts ex inc key hk1 hk2 hmnd hcols]
  cases hlk : m.lookup key with
  | none => exact hex
  | some mode =>
    show resolveColumn mode key (getCol ex key) (getCol inc key) = some k
    rw [hex, hinc]
    exact resolveColumn_same mode key k hk3

theorem mkInsertRow_inv (schema insertCols csvCols : List String) (src ts : String) (s : Row)
    (hs : "spotify_uri" ∈ schema) (hmb : "mbid" ∈ schema)
    (hw : wherePass csvCols s = true)
    (hic1 : "spotify_uri" ∈ csvCols → "spotify_uri" ∈ insertCols)
    (hic2 : "mbid" ∈ csvCols → "mbid" ∈ insertCols)
    (hkey : "spotify_uri" ∈ csvCols ∨ "mbid" ∈ csvCols) :
    hasIdentifier (mkInsertRow schema insertCols src ts s) := by
  unfold wherePass at hw
  simp only [Bool.or_eq_true, Bool.and_eq_true, decide_eq_true_eq] at hw
  rcases hw with (⟨hc, hv⟩ | ⟨hc, hv⟩) | ⟨hc1, hc2⟩
  · left
    rw [getCol_mkInsertRow schema insertCols src ts s "spotify_uri" hs]
    unfold mkInsertVal
    rw [if_neg (by decide), if_neg (by decide), if_pos (hic1 hc)]
    exact hv
  · right
    rw [getCol_mkInsertRow schema insertCols src ts s "mbid" hmb]
    unfold mkInsertVal
    rw [if_neg (by decide), if_neg (by decide), if_pos (hic2 hc)]
    exact hv
  · rcases hkey with h | h
    · exact absurd h hc1
    · exact absurd h hc2

theorem upsertGo_inv (schema : List String) (m : List (String × String))
    (src ts key : String)
    (hk1 : key ≠ "source_name") (hk2 : key ≠ "ingested_at") (hk3 : key ≠ "genres")
    (hkid : key = "spotify_uri" ∨ key = "mbid")
    (hmnd : (m.map Prod.fst).Nodup) (hmsch : ∀ p ∈ m, p.1 ∈ schema) :
    ∀ (sel table : List Row) (touched : List String) (t1 : List Row),
      (∀ r ∈ table, wellFormed schema r) → (∀ r ∈ sel, wellFormed schema r) →
      (∀ r ∈ table, hasIdentifier r) → (∀ r ∈ sel, hasIdentifier r) →
      upsertGo m src ts key table touched sel = .ok t1 →
      ∀ r ∈ t1, hasIdentifier r := by
  intro sel
  induction sel with
  | nil =>
    intro table touched t1 htw hsw hti hsi hgo r hr
    have heq : table = t1 := by simpa [upsertGo] using hgo
    exact hti r (heq ▸ hr)
  | cons r0 rest ih =>
    intro table touched t1 htw hsw hti hsi hgo r hr
    have hsw0 := hsw r0 (List.mem_cons_self _ _)
    have hsi0 := hsi r0 (List.mem_cons_self _ _)
    have hswr : ∀ x ∈ rest, wellFormed schema x := fun x hx => hsw x (List.mem_cons_of_mem _ hx)
    have hsir : ∀ x ∈ rest, hasIdentifier x := fun x hx => hsi x (List.mem_cons_of_mem _ hx)
    cases hk0 : getCol r0 key with
    | none =>
      rw [show upsertGo m src ts key table touched (r0 :: rest) =
          upsertGo m src ts key (table ++ [r0]) touched rest from by
        simp [upsertGo, hk0]] at hgo
      refine ih (table ++ [r0]) touched t1 ?_ hswr ?_ hsir hgo r hr
      · intro x hx
        rcases List.mem_append.mp hx with h | h
        · exact htw x h
        · rw [List.mem_singleton.mp h]; exact hsw0
      · intro x hx
        rcases List.mem_append.mp hx with h | h
        · exact hti x h
        · rw [List.mem_singleton.mp h]; exact hsi0
    | some k =>
      by_cases htch : k ∈ touched
      · rw [show upsertGo m src ts key table touched (r0 :: rest) =
            .error affectTwiceMsg from by simp [upsertGo, hk0, htch]] at hgo
        exact absurd hgo (by simp)
      · by_cases hany : (table.any fun mr => decide (getCol mr key = some k)) = true
        · rw [show upsertGo m src ts key table touched (r0 :: rest) =
              upsertGo m src ts key (table.map (fun mr =>
                if getCol mr key = some k then applySet m src ts mr r0 else mr))
                (k :: touched) rest from by simp [upsertGo, hk0, htch, hany]] at hgo
          refine ih _ (k :: touched) t1 ?_ hswr ?_ hsir hgo r hr
          · intro x hx
            obtain ⟨y, hy, hyx⟩ := List.mem_map.mp hx
            by_cases hyk : getCol y key = some k
            · rw [← hyx, if_pos hyk]
              exact wellFormed_applySet (htw y hy) m src ts r0
            · rw [← hyx, if_neg hyk]
              exact htw y hy
          · intro x hx
            obtain ⟨y, hy, hyx⟩ := List.mem_map.mp hx
            by_cases hyk : getCol y key = some k
            · rw [← hyx, if_pos hyk]
              have hkk : getCol (applySet m src ts y r0) key = some k := by
                refine getCol_applySet_key m src ts key k y r0 hk1 hk2 hk3 hmnd ?_ hyk hk0
                intro p hp
                have hy2 : y.map Prod.fst = schema := htw y hy
                rw [hy2]
                exact hmsch p hp
              unfold hasIdentifier
              rcases hkid with hks | hkm
              · left
                rw [← hks, hkk]
                simp
              · right
                rw [← hkm, hkk]
                simp
            · rw [← hyx, if_neg hyk]
              exact hti y hy
        · rw [show upsertGo m src ts key table touched (r0 :: rest) =
              upsertGo m src ts key (table ++ [r0]) (k :: touched) rest from by
            simp [upsertGo, hk0, htch, hany]] at hgo
          refine ih (table ++ [r0]) (k :: touched) t1 ?_ hswr ?_ hsir hgo r hr
          · intro x hx
            rcases List.mem_append.mp hx with h | h
            · exact htw x h
            · rw [List.mem_singleton.mp h]; exact hsw0
          · intro x hx
            rcases List.mem_append.mp hx with h | h
            · exact hti x h
            · rw [List.mem_singleton.mp h]; exact hsi0

theorem conflictKey_cases (entity : String) (csvc : CsvColumns) (key : String)
    (h : conflictKey entity csvc = .ok key) :
    (key = "spotify_uri" ∧ "spotify_uri" ∈ (csvc.lookup entity).getD []) ∨
    (key = "mbid" ∧ "mbid" ∈ (csvc.lookup entity).getD [] ∧
      "spotify_uri" ∉ (csvc.lookup entity).getD []) := by
  simp only [conflictKey] at h
  split_ifs at h with h1 h2
  · left
    exact ⟨(Except.ok.inj h).symm, h1⟩
  · right
    exact ⟨(Except.ok.inj h).symm, h2, h1⟩

theorem filterMap_fst_sublist {β : Type} (f : String → Option (String × β))
    (hf : ∀ c x, f c = some x → x.1 = c) :
    ∀ cols : List String, ((cols.filterMap f).map Prod.fst).Sublist cols := by
  intro cols
  induction cols with
  | nil => simp
  | cons c cs ih =>
    cases hfc : f c with
    | none =>
      rw [List.filterMap_cons_none hfc]
      exact List.Sublist.cons c ih
    | some x =>
      rw [List.filterMap_cons_some hfc, List.map_cons, hf c x hfc]
      exact List.Sublist.cons₂ c ih

theorem build_set_entries_fst_sublist (csv : List String) (pol : List (String × String))
    (cols : List String) : ((build_set_entries csv pol cols).map Prod.fst).Sublist cols := by
  unfold build_set_entries
  refine filterMap_fst_sublist _ ?_ cols
  intro c x h
  split_ifs at h with h1 h2
  rw [← Option.some.inj h]

theorem optional_cols_nodup (entity : String) : (optional_cols entity).Nodup := by
  unfold optional_cols
  split_ifs <;> decide

theorem optional_cols_not_core (entity : String) (c : String) (hc : c ∈ optional_cols entity) :
    c ≠ "name" ∧ c ≠ "mbid" ∧ c ≠ "spotify_uri" ∧ c ≠ "source_name" ∧ c ≠ "ingested_at" := by
  unfold optional_cols at hc
  split_ifs at hc
  · rw [List.mem_singleton.mp hc]
    exact ⟨by decide, by decide, by decide, by decide, by decide⟩
  · simp only [List.mem_cons, List.not_mem_nil, or_false] at hc
    rcases hc with rfl | rfl | rfl | rfl <;>
      exact ⟨by decide, by decide, by decide, by decide, by decide⟩
  · simp only [List.mem_cons, List.not_mem_nil, or_false] at hc
    rcases hc with rfl | rfl | rfl | rfl <;>
      exact ⟨by decide, by decide, by decide, by decide, by decide⟩
  · exact absurd hc (by simp)

theorem updatable_cols_nodup (entity : String) (csv : List String) :
    (updatable_cols entity csv).Nodup := by
  unfold updatable_cols
  refine List.Nodup.append ?_ ?_ ?_
  · exact List.Nodup.filter _ (by decide)
  · exact List.Nodup.filter _ (optional_cols_nodup entity)
  · intro c hc1 hc2
    have h1 := (List.mem_filter.mp hc1).1
    have h2 := (List.mem_filter.mp hc2).1
    have h3 := optional_cols_not_core entity c h2
    simp only [List.mem_cons, List.not_mem_nil, or_false] at h1
    rcases h1 with rfl | rfl | rfl
    · exact h3.1 rfl
    · exact h3.2.1 rfl
    · exact h3.2.2.1 rfl

theorem updatable_cols_not_prov (entity : String) (csv : List String) (c : String)
    (hc : c ∈ updatable_cols entity csv) : c ≠ "source_name" ∧ c ≠ "ingested_at" := by
  unfold updatable_cols at hc
  rcases List.mem_append.mp hc with h | h
  · have h1 := (List.mem_filter.mp h).1
    simp only [List.mem_cons, List.not_mem_nil, or_false] at h1
    rcases h1 with rfl | rfl | rfl <;> exact ⟨by decide, by decide⟩
  · have h2 := (List.mem_filter.mp h).1
    have h3 := optional_cols_not_core entity c h2
    exact ⟨h3.2.2.2.1, h3.2.2.2.2⟩

theorem spotify_mem_updatable (entity : String) (csv : List String)
    (h : "spotify_uri" ∈ csv) : "spotify_uri" ∈ updatable_cols entity csv := by
  unfold updatable_cols
  refine List.mem_append_left _ ?_
  exact List.mem_filter.mpr ⟨by decide, by simp [h]⟩

theorem mbid_mem_updatable (entity : String) (csv : List String)
    (h : "mbid" ∈ csv) : "mbid" ∈ updatable_cols entity csv := by
  unfold updatable_cols
  refine List.mem_append_left _ ?_
  exact List.mem_filter.mpr ⟨by decide, by simp [h]⟩

theorem build_set_modes_ok_elim (entity : String) (cols : List String) (csvc : CsvColumns)
    (pol : PolicyMap) (sm : List (String × String))
    (h : build_set_modes entity cols csvc pol = .ok sm) :
    ∃ epf, sm = build_set_entries ((csvc.lookup entity).getD []) epf cols := by
  unfold build_set_modes get_policy at h
  cases hlk : pol.lookup entity with
  | none =>
    rw [hlk] at h
    exact Except.noConfusion h
  | some ep =>
    rw [hlk] at h
    exact ⟨ep.filter (fun p => decide (p.1 ∈ (csvc.lookup entity).getD [])),
      (Except.ok.inj h).symm⟩

theorem selRows_wf (schema insertCols csvCols : List String) (src ts : String)
    (staging : List Row) :
    ∀ r ∈ selRows schema insertCols csvCols src ts staging, wellFormed schema r := by
  intro r hr
  obtain ⟨s, hs, rfl⟩ := List.mem_map.mp (List.mem_dedup.mp hr)
  exact wellFormed_mkInsertRow schema insertCols src ts s

theorem selRows_inv (schema insertCols csvCols : List String) (src ts : String)
    (staging : List Row)
    (hs : "spotify_uri" ∈ schema) (hmb : "mbid" ∈ schema)
    (hic1 : "spotify_uri" ∈ csvCols → "spotify_uri" ∈ insertCols)
    (hic2 : "mbid" ∈ csvCols → "mbid" ∈ insertCols)
    (hkey : "spotify_uri" ∈ csvCols ∨ "mbid" ∈ csvCols) :
    ∀ r ∈ selRows schema insertCols csvCols src ts staging, hasIdentifier r := by
  intro r hr
  obtain ⟨s, hs2, rfl⟩ := List.mem_map.mp (List.mem_dedup.mp hr)
  exact mkInsertRow_inv schema insertCols csvCols src ts s hs hmb
    ((List.mem_filter.mp hs2).2) hic1 hic2 hkey

theorem lookup_mem : ∀ (m : List (String × String)) (c v : String),
    m.lookup c = some v → (c, v) ∈ m := by
  intro m
  induction m with
  | nil => intro c v h; exact Option.noConfusion h
  | cons p rest ih =>
    intro c v h
    obtain ⟨k, w⟩ := p
    cases hb : (c == k) with
    | true =>
      have hck : c = k := by simpa using hb
      have hvw : w = v := by simpa [List.lookup, hb] using h
      rw [hck, hvw]
      exact List.mem_cons_self _ _
    | false =>
      have h2 : rest.lookup c = some v := by simpa [List.lookup, hb] using h
      exact List.mem_cons_of_mem _ (ih c v h2)

theorem getCol_applySet_key_pnn (m : List (String × String)) (src ts key k : String)
    (ex inc : Row)
    (hk1 : key ≠ "source_name") (hk2 : key ≠ "ingested_at")
    (hmnd : (m.map Prod.fst).Nodup)
    (hmodes : ∀ p ∈ m, p.2 = "prefer_non_null")
    (hcols : ∀ p ∈ m, p.1 ∈ ex.map Prod.fst)
    (hex : getCol ex key = some k) :
    getCol (applySet m src ts ex inc) key = some k := by
  rw [getCol_applySet_other m src ts ex inc key hk1 hk2 hmnd hcols]
  cases hlk : m.lookup key with
  | none => exact hex
  | some mode =>
    show resolveColumn mode key (getCol ex key) (getCol inc key) = some k
    have hmode : mode = "prefer_non_null" := hmodes (key, mode) (lookup_mem m key mode hlk)
    rw [hmode, hex]
    simp [resolveColumn, resolvePreferNonNull]

theorem applySet_self (schema : List String) (m : List (String × String)) (src ts : String)
    (r : Row)
    (hschema : schema.Nodup) (hwf : wellFormed schema r)
    (hsrcS : "source_name" ∈ schema) (htsS : "ingested_at" ∈ schema)
    (hmnd : (m.map Prod.fst).Nodup)
    (hmodes : ∀ p ∈ m, p.2 = "prefer_non_null")
    (hmsch : ∀ p ∈ m, p.1 ∈ schema)
    (hrs : getCol r "source_name" = some src) (hrt : getCol r "ingested_at" = some ts) :
    applySet m src ts r r = r := by
  have hwfeq : r.map Prod.fst = schema := hwf
  refine row_ext schema _ _ hschema (wellFormed_applySet hwf m src ts r) hwf ?_
  intro c hc
  by_cases h1 : c = "ingested_at"
  · subst h1
    rw [getCol_applySet_ts m src ts r r (by rw [hwfeq]; exact htsS), hrt]
  · by_cases h2 : c = "source_name"
    · subst h2
      rw [getCol_applySet_src m src ts r r (by rw [hwfeq]; exact hsrcS), hrs]
    · rw [getCol_applySet_other m src ts r r c h2 h1 hmnd
        (fun p hp => by rw [hwfeq]; exact hmsch p hp)]
      cases hlk : m.lookup c with
      | none => rfl
      | some mode =>
        show resolveColumn mode c (getCol r c) (getCol r c) = getCol r c
        have hmode : mode = "prefer_non_null" := hmodes (c, mode) (lookup_mem m c mode hlk)
        rw [hmode]
        have hres : resolvePreferNonNull (getCol r c) (getCol r c) = getCol r c := by
          cases getCol r c <;> rfl
        simp [resolveColumn, hres]

theorem applySet_idem (schema : List String) (m : List (String × String)) (src ts : String)
    (ex inc : Row)
    (hschema : schema.Nodup) (hwf : wellFormed schema ex)
    (hsrcS : "source_name" ∈ schema) (htsS : "ingested_at" ∈ schema)
    (hmnd : (m.map Prod.fst).Nodup)
    (hmodes : ∀ p ∈ m, p.2 = "prefer_non_null")
    (hmsch : ∀ p ∈ m, p.1 ∈ schema) :
    applySet m src ts (applySet m src ts ex inc) inc = applySet m src ts ex inc := by
  have hwf1 : wellFormed schema (applySet m src ts ex inc) :=
    wellFormed_applySet hwf m src ts inc
  have hwfeq : ex.map Prod.fst = schema := hwf
  have hwf1eq : (applySet m src ts ex inc).map Prod.fst = schema := hwf1
  refine row_ext schema _ _ hschema (wellFormed_applySet hwf1 m src ts inc) hwf1 ?_
  intro c hc
  by_cases h1 : c = "ingested_at"
  · subst h1
    rw [getCol_applySet_ts m src ts _ inc (by rw [hwf1eq]; exact htsS),
      getCol_applySet_ts m src ts ex inc (by rw [hwfeq]; exact htsS)]
  · by_cases h2 : c = "source_name"
    · subst h2
      rw [getCol_applySet_src m src ts _ inc (by rw [hwf1eq]; exact hsrcS),
        getCol_applySet_src m src ts ex inc (by rw [hwfeq]; exact hsrcS)]
    · rw [getCol_applySet_other m src ts _ inc c h2 h1 hmnd
        (fun p hp => by rw [hwf1eq]; exact hmsch p hp)]
      cases hlk : m.lookup c with
      | none => rfl
      | some mode =>
        show resolveColumn mode c (getCol (applySet m src ts ex inc) c) (getCol inc c) =
          getCol (applySet m src ts ex inc) c
        have hmode : mode = "prefer_non_null" := hmodes (c, mode) (lookup_mem m c mode hlk)
        have hinner : getCol (applySet m src ts ex inc) c =
            resolveColumn mode c (getCol ex c) (getCol inc c) := by
          rw [getCol_applySet_other m src ts ex inc c h2 h1 hmnd
            (fun p hp => by rw [hwfeq]; exact hmsch p hp), hlk]
        rw [hinner, hmode]
        simp only [resolveColumn, if_neg (by decide : ¬("prefer_non_null" = "prefer_incoming")),
          if_pos rfl]
        exact resolvePreferNonNull_idem (getCol ex c) (getCol inc c)

theorem filter_map_invariant {α : Type} (p : α → Bool) (f : α → α) :
    ∀ l : List α, (∀ x ∈ l, p (f x) = p x ∧ (p x = true → f x = x)) →
      (l.map f).filter p = l.filter p := by
  intro l
  induction l with
  | nil => intro _; rfl
  | cons x xs ih =>
    intro h
    have hx := h x (List.mem_cons_self _ _)
    have htail := ih (fun y hy => h y (List.mem_cons_of_mem _ hy))
    simp only [List.map_cons, List.filter_cons, hx.1]
    cases hp : p x with
    | true =>
      rw [hx.2 hp]
      simp only [htail]
    | false =>
      simp only [htail]
      rfl

theorem upsertGo_frame (schema : List String) (m : List (String × String))
    (src ts key : String)
    (hk1 : key ≠ "source_name") (hk2 : key ≠ "ingested_at")
    (hmnd : (m.map Prod.fst).Nodup)
    (hmodes : ∀ p ∈ m, p.2 = "prefer_non_null")
    (hmsch : ∀ p ∈ m, p.1 ∈ schema) :
    ∀ (sel table : List Row) (touched : List String) (t1 : List Row) (k0 : String),
      (∀ r ∈ table, wellFormed schema r) → (∀ r ∈ sel, wellFormed schema r) →
      (∀ r ∈ sel, getCol r key ≠ some k0) →
      upsertGo m src ts key table touched sel = .ok t1 →
      t1.filter (fun r => decide (getCol r key = some k0)) =
        table.filter (fun r => decide (getCol r key = some k0)) := by
  intro sel
  induction sel with
  | nil =>
    intro table touched t1 k0 htw hsw hknot hgo
    have heq : table = t1 := by simpa [upsertGo] using hgo
    rw [heq]
  | cons r0 rest ih =>
    intro table touched t1 k0 htw hsw hknot hgo
    have hsw0 := hsw r0 (List.mem_cons_self _ _)
    have hswr : ∀ x ∈ rest, wellFormed schema x := fun x hx => hsw x (List.mem_cons_of_mem _ hx)
    have hknotr : ∀ x ∈ rest, getCol x key ≠ some k0 :=
      fun x hx => hknot x (List.mem_cons_of_mem _ hx)
    have hknot0 := hknot r0 (List.mem_cons_self _ _)
    cases hk0 : getCol r0 key with
    | none =>
      rw [show upsertGo m src ts key table touched (r0 :: rest) =
          upsertGo m src ts key (table ++ [r0]) touched rest from by
        simp [upsertGo, hk0]] at hgo
      have htw' : ∀ x ∈ table ++ [r0], wellFormed schema x := by
        intro x hx
        rcases List.mem_append.mp hx with h | h
        · exact htw x h
        · rw [List.mem_singleton.mp h]; exact hsw0
      rw [ih (table ++ [r0]) touched t1 k0 htw' hswr hknotr hgo, List.filter_append]
      have : [r0].filter (fun r => decide (getCol r key = some k0)) = [] := by
        simp [hk0]
      rw [this, List.append_nil]
    | some kr =>
      have hkrne : kr ≠ k0 := by
        intro h
        rw [h] at hk0
        exact hknot0 hk0
      by_cases htch : kr ∈ touched
      · rw [show upsertGo m src ts key table touched (r0 :: rest) =
            .error affectTwiceMsg from by simp [upsertGo, hk0, htch]] at hgo
        exact Except.noConfusion hgo
      · by_cases hany : (table.any fun mr => decide (getCol mr key = some kr)) = true
        · rw [show upsertGo m src ts key table touched (r0 :: rest) =
              upsertGo m src ts key (table.map (fun mr =>
                if getCol mr key = some kr then applySet m src ts mr r0 else mr))
                (kr :: touched) rest from by simp [upsertGo, hk0, htch, hany]] at hgo
          have htw' : ∀ x ∈ table.map (fun mr =>
              if getCol mr key = some kr then applySet m src ts mr r0 else mr),
              wellFormed schema x := by
            intro x hx
            obtain ⟨y, hy, hyx⟩ := List.mem_map.mp hx
            by_cases hyk : getCol y key = some kr
            · rw [← hyx, if_pos hyk]
              exact wellFormed_applySet (htw y hy) m src ts r0
            · rw [← hyx, if_neg hyk]
              exact htw y hy
          rw [ih _ (kr :: touched) t1 k0 htw' hswr hknotr hgo]
          refine filter_map_invariant _ _ table ?_
          intro x hx
          by_cases hxk : getCol x key = some kr
          · have hset : getCol (applySet m src ts x r0) key = some kr :=
              getCol_applySet_key_pnn m src ts key kr x r0 hk1 hk2 hmnd hmodes
                (fun p hp => by rw [(htw x hx : x.map Prod.fst = schema)]; exact hmsch p hp) hxk
            constructor
            · rw [if_pos hxk, hset, hxk]
            · intro hpx
              simp only [decide_eq_true_eq] at hpx
              rw [hpx] at hxk
              exact absurd (Option.some.inj hxk).symm hkrne
          · rw [if_neg hxk]
            exact ⟨rfl, fun _ => rfl⟩
        · rw [show upsertGo m src ts key table touched (r0 :: rest) =
              upsertGo m src ts key (table ++ [r0]) (kr :: touched) rest from by
            simp [upsertGo, hk0, htch, hany]] at hgo
          have htw' : ∀ x ∈ table ++ [r0], wellFormed schema x := by
            intro x hx
            rcases List.mem_append.mp hx with h | h
            · exact htw x h
            · rw [List.mem_singleton.mp h]; exact hsw0
          rw [ih (table ++ [r0]) (kr :: touched) t1 k0 htw' hswr hknotr hgo,
            List.filter_append]
          have : [r0].filter (fun r => decide (getCol r key = some k0)) = [] := by
            simp [hk0, hkrne]
          rw [this, List.append_nil]

theorem upsertGo_idem (schema : List String) (m : List (String × String))
    (src ts key : String)
    (hschema : schema.Nodup) (hsrcS : "source_name" ∈ schema) (htsS : "ingested_at" ∈ schema)
    (hk1 : key ≠ "source_name") (hk2 : key ≠ "ingested_at")
    (hmnd : (m.map Prod.fst).Nodup) (hmodes : ∀ p ∈ m, p.2 = "prefer_non_null")
    (hmsch : ∀ p ∈ m, p.1 ∈ schema) :
    ∀ (sel table : List Row) (touched : List String),
      (∀ r ∈ table, wellFormed schema r) →
      (∀ r ∈ sel, wellFormed schema r) →
      (∀ r ∈ sel, getCol r key ≠ none) →
      ((sel.map (fun r => getCol r key)).Nodup) →
      (∀ r ∈ sel, ∀ kk, getCol r key = some kk → kk ∉ touched) →
      (∀ r ∈ sel, getCol r "source_name" = some src ∧ getCol r "ingested_at" = some ts) →
      ∃ t1, upsertGo m src ts key table touched sel = .ok t1 ∧
        upsertGo m src ts key t1 touched sel = .ok t1 ∧
        (∀ r ∈ t1, wellFormed schema r) := by
  intro sel
  induction sel with
  | nil =>
    intro table touched htw _ _ _ _ _
    exact ⟨table, rfl, rfl, htw⟩
  | cons r0 rest ih =>
    intro table touched htw hsw hkeysome hnd htch hprov
    have hsw0 := hsw r0 (List.mem_cons_self _ _)
    have hswr : ∀ x ∈ rest, wellFormed schema x := fun x hx => hsw x (List.mem_cons_of_mem _ hx)
    have hkeyr : ∀ x ∈ rest, getCol x key ≠ none :=
      fun x hx => hkeysome x (List.mem_cons_of_mem _ hx)
    have hprovr : ∀ x ∈ rest, getCol x "source_name" = some src ∧
        getCol x "ingested_at" = some ts := fun x hx => hprov x (List.mem_cons_of_mem _ hx)
    cases hk0 : getCol r0 key with
    | none => exact absurd hk0 (hkeysome r0 (List.mem_cons_self _ _))
    | some k0 =>
      have hndcons : some k0 ∉ rest.map (fun r => getCol r key) ∧
          (rest.map (fun r => getCol r key)).Nodup := by
        have := hnd
        simp only [List.map_cons, List.nodup_cons, hk0] at this
        exact this
      have hknotr : ∀ x ∈ rest, getCol x key ≠ some k0 := by
        intro x hx h
        exact hndcons.1 (h ▸ List.mem_map_of_mem (fun r => getCol r key) hx)
      have hndr := hndcons.2
      have hk0nt : k0 ∉ touched := htch r0 (List.mem_cons_self _ _) k0 hk0
      have htchr : ∀ x ∈ rest, ∀ kk, getCol x key = some kk → kk ∉ k0 :: touched := by
        intro x hx kk hkk
        intro hmem
        rcases List.mem_cons.mp hmem with h | h
        · rw [h] at hkk
          exact hknotr x hx hkk
        · exact htch x (List.mem_cons_of_mem _ hx) kk hkk h
      by_cases hany : (table.any fun mr => decide (getCol mr key = some k0)) = true
      · -- conflict: update the matching row
        have hex0 : ∃ a ∈ table, getCol a key = some k0 := by
          obtain ⟨a, ha, hpa⟩ := List.any_eq_true.mp hany
          exact ⟨a, ha, of_decide_eq_true hpa⟩
        obtain ⟨mr0, hmr0, hmr0k⟩ := hex0
        have htw' : ∀ x ∈ table.map (fun mr =>
            if getCol mr key = some k0 then applySet m src ts mr r0 else mr),
            wellFormed schema x := by
          intro x hx
          obtain ⟨y, hy, hyx⟩ := List.mem_map.mp hx
          by_cases hyk : getCol y key = some k0
          · rw [← hyx, if_pos hyk]
            exact wellFormed_applySet (htw y hy) m src ts r0
          · rw [← hyx, if_neg hyk]
            exact htw y hy
        obtain ⟨t1, hgo1, hgo2, hwf1⟩ := ih _ (k0 :: touched) htw' hswr hkeyr hndr htchr hprovr
        have hfr := upsertGo_frame schema m src ts key hk1 hk2 hmnd hmodes hmsch rest _
          (k0 :: touched) t1 k0 htw' hswr hknotr hgo1
        have hupd0 : getCol (applySet m src ts mr0 r0) key = some k0 :=
          getCol_applySet_key_pnn m src ts key k0 mr0 r0 hk1 hk2 hmnd hmodes
            (fun p hp => by rw [(htw mr0 hmr0 : mr0.map Prod.fst = schema)]; exact hmsch p hp)
            hmr0k
        have hex1 : (t1.any fun mr => decide (getCol mr key = some k0)) = true := by
          have hmem1 : applySet m src ts mr0 r0 ∈ (table.map (fun mr =>
              if getCol mr key = some k0 then applySet m src ts mr r0 else mr)).filter
                (fun r => decide (getCol r key = some k0)) := by
            refine List.mem_filter.mpr ⟨?_, by simp [hupd0]⟩
            have hbeta : (fun mr => if getCol mr key = some k0 then
                applySet m src ts mr r0 else mr) mr0 = applySet m src ts mr0 r0 := by
              show (if getCol mr0 key = some k0 then applySet m src ts mr0 r0 else mr0) =
                applySet m src ts mr0 r0
              rw [if_pos hmr0k]
            rw [← hbeta]
            exact List.mem_map_of_mem _ hmr0
          rw [← hfr] at hmem1
          exact List.any_eq_true.mpr ⟨_, (List.mem_filter.mp hmem1).1, by simp [hupd0]⟩
        have hfix : (t1.map (fun mr =>
            if getCol mr key = some k0 then applySet m src ts mr r0 else mr)) = t1 := by
          have hpt : ∀ x ∈ t1, (fun mr =>
              if getCol mr key = some k0 then applySet m src ts mr r0 else mr) x = id x := by
            intro x hx
            by_cases hxk : getCol x key = some k0
            · have hxf : x ∈ t1.filter (fun r => decide (getCol r key = some k0)) :=
                List.mem_filter.mpr ⟨hx, by simp [hxk]⟩
              rw [hfr] at hxf
              have hxt' := (List.mem_filter.mp hxf).1
              obtain ⟨y, hy, hyx⟩ := List.mem_map.mp hxt'
              by_cases hyk : getCol y key = some k0
              · rw [if_pos hyk] at hyx
                show (if getCol x key = some k0 then applySet m src ts x r0 else x) = x
                rw [if_pos hxk, ← hyx]
                exact applySet_idem schema m src ts y r0 hschema (htw y hy) hsrcS htsS
                  hmnd hmodes hmsch
              · rw [if_neg hyk] at hyx
                rw [hyx] at hyk
                exact absurd hxk hyk
            · show (if getCol x key = some k0 then applySet m src ts x r0 else x) = x
              rw [if_neg hxk]
          rw [List.map_congr_left hpt, List.map_id]
        refine ⟨t1, ?_, ?_, hwf1⟩
        · rw [show upsertGo m src ts key table touched (r0 :: rest) =
              upsertGo m src ts key (table.map (fun mr =>
                if getCol mr key = some k0 then applySet m src ts mr r0 else mr))
                (k0 :: touched) rest from by simp [upsertGo, hk0, hk0nt, hany]]
          exact hgo1
        · rw [show upsertGo m src ts key t1 touched (r0 :: rest) =
              upsertGo m src ts key (t1.map (fun mr =>
                if getCol mr key = some k0 then applySet m src ts mr r0 else mr))
                (k0 :: touched) rest from by simp [upsertGo, hk0, hk0nt, hex1]]
          rw [hfix]
          exact hgo2
      · -- no conflict: insert, second run updates the inserted row in place
        have htw' : ∀ x ∈ table ++ [r0], wellFormed schema x := by
          intro x hx
          rcases List.mem_append.mp hx with h | h
          · exact htw x h
          · rw [List.mem_singleton.mp h]; exact hsw0
        obtain ⟨t1, hgo1, hgo2, hwf1⟩ := ih _ (k0 :: touched) htw' hswr hkeyr hndr htchr hprovr
        have hfr := upsertGo_frame schema m src ts key hk1 hk2 hmnd hmodes hmsch rest _
          (k0 :: touched) t1 k0 htw' hswr hknotr hgo1
        have htblnone : ∀ mr ∈ table, getCol mr key ≠ some k0 := by
          intro mr hmr h
          exact hany (List.any_eq_true.mpr ⟨mr, hmr, by simp [h]⟩)
        have hex1 : (t1.any fun mr => decide (getCol mr key = some k0)) = true := by
          have hmem1 : r0 ∈ (table ++ [r0]).filter
              (fun r => decide (getCol r key = some k0)) :=
            List.mem_filter.mpr ⟨List.mem_append_right _ (List.mem_singleton.mpr rfl),
              by simp [hk0]⟩
          rw [← hfr] at hmem1
          exact List.any_eq_true.mpr ⟨_, (List.mem_filter.mp hmem1).1, by simp [hk0]⟩
        have hfix : (t1.map (fun mr =>
            if getCol mr key = some k0 then applySet m src ts mr r0 else mr)) = t1 := by
          have hpt : ∀ x ∈ t1, (fun mr =>
              if getCol mr key = some k0 then applySet m src ts mr r0 else mr) x = id x := by
            intro x hx
            by_cases hxk : getCol x key = some k0
            · have hxf : x ∈ t1.filter (fun r => decide (getCol r key = some k0)) :=
                List.mem_filter.mpr ⟨hx, by simp [hxk]⟩
              rw [hfr, List.filter_append] at hxf
              have htfil : table.filter (fun r => decide (getCol r key = some k0)) = [] :=
                List.filter_eq_nil_iff.mpr (fun a ha => by simp [htblnone a ha])
              rw [htfil, List.nil_append] at hxf
              have hxr0 : x = r0 := by
                have := (List.mem_filter.mp hxf).1
                exact List.mem_singleton.mp this
              show (if getCol x key = some k0 then applySet m src ts x r0 else x) = x
              rw [if_pos hxk, hxr0]
              exact applySet_self schema m src ts r0 hschema hsw0 hsrcS htsS hmnd hmodes
                hmsch (hprov r0 (List.mem_cons_self _ _)).1 (hprov r0 (List.mem_cons_self _ _)).2
            · show (if getCol x key = some k0 then applySet m src ts x r0 else x) = x
              rw [if_neg hxk]
          rw [List.map_congr_left hpt, List.map_id]
        refine ⟨t1, ?_, ?_, hwf1⟩
        · rw [show upsertGo m src ts key table touched (r0 :: rest) =
              upsertGo m src ts key (table ++ [r0]) (k0 :: touched) rest from by
            simp [upsertGo, hk0, hk0nt, hany]]
          exact hgo1
        · rw [show upsertGo m src ts key t1 touched (r0 :: rest) =
              upsertGo m src ts key (t1.map (fun mr =>
                if getCol mr key = some k0 then applySet m src ts mr r0 else mr))
                (k0 :: touched) rest from by simp [upsertGo, hk0, hk0nt, hex1]]
          rw [hfix]
          exact hgo2

theorem mem_posIndexed_snd {α : Type} : ∀ (l : List α) (n : Nat) (p : Nat × α),
    p ∈ posIndexed n l → p.2 ∈ l := by
  intro l
  induction l with
  | nil => intro n p h; simp [posIndexed] at h
  | cons u us ih =>
    intro n p h
    rcases List.mem_cons.mp h with h1 | h2
    · subst h1; exact List.mem_cons_self u us
    · exact List.mem_cons_of_mem u (ih (n + 1) p h2)

theorem insertedByReplace_single (s : AStagingRow) (entities : List EntityRow)
    (artists : List ArtistRow) (e : EntityRow) (L : List String)
    (hL : s.artist_uris = some L) (hm : matchedEntities entities s = [e]) :
    insertedByReplace [s] entities artists =
      (posIndexed 0 L).filterMap (assocOfPos artists e.id) := by
  unfold insertedByReplace
  rw [incomingAssocRows_single s entities artists e L hL hm]
  exact List.dedup_eq_self.mpr
    (nodup_posIndexed_filterMap (assocOfPos artists e.id) 0 (assocOfPos_off artists e.id) L 0)

theorem extendInsertRows_single (s : AStagingRow) (entities : List EntityRow)
    (artists : List ArtistRow) (assocs : List Assoc) (e : EntityRow) (L : List String)
    (hL : s.artist_uris = some L) (hm : matchedEntities entities s = [e]) :
    extendInsertRows [s] entities artists assocs =
      (posIndexed 0 ((L.filterMap (resolveArtist artists)).filter
        (fun aid => !assocMember assocs e.id aid))).map
        (fun p => ⟨e.id, p.2, maxPosition assocs e.id + (p.1 : Int) + 1⟩) := by
  simp [extendInsertRows, hL, hm]

theorem mem_posIndexed_map_pos {α : Type} (f : Nat × α → Assoc) (off : Int)
    (hf : ∀ p, (f p).position = (p.1 : Int) + off) (l : List α) :
    ∀ (n : Nat) (a : Assoc), a ∈ (posIndexed n l).map f → (n : Int) + off ≤ a.position := by
  induction l with
  | nil => intro n a h; simp [posIndexed] at h
  | cons u us ih =>
    intro n a h
    simp only [posIndexed, List.map_cons] at h
    rcases List.mem_cons.mp h with h1 | h2
    · subst h1
      rw [hf (n, u)]
    · have := ih (n + 1) a h2
      push_cast at this ⊢
      omega

theorem nodup_posIndexed_map {α : Type} (f : Nat × α → Assoc) (off : Int)
    (hf : ∀ p, (f p).position = (p.1 : Int) + off) (l : List α) :
    ∀ n : Nat, ((posIndexed n l).map f).Nodup := by
  induction l with
  | nil => intro n; simp [posIndexed]
  | cons u us ih =>
    intro n
    simp only [posIndexed, List.map_cons]
    refine List.nodup_cons.mpr ⟨?_, ih (n + 1)⟩
    intro hb
    have h1 := mem_posIndexed_map_pos f off hf us (n + 1) (f (n, u)) hb
    have h2 := hf (n, u)
    push_cast at h1
    omega

theorem nodup_extend_map (artists : List ArtistRow) (assocs : List Assoc) (e : EntityRow)
    (ids : List Nat) :
    ((posIndexed 0 ids).map
      (fun p => (⟨e.id, p.2, maxPosition assocs e.id + (p.1 : Int) + 1⟩ : Assoc))).Nodup := by
  refine nodup_posIndexed_map _ (maxPosition assocs e.id + 1) ?_ ids 0
  intro p
  simp
  omega

theorem mem_posIndexed_of_mem {α : Type} : ∀ (l : List α) (n : Nat) (a : α),
    a ∈ l → ∃ p ∈ posIndexed n l, p.2 = a := by
  intro l
  induction l with
  | nil => intro n a h; simp at h
  | cons u us ih =>
    intro n a h
    rcases List.mem_cons.mp h with h1 | h1
    · exact ⟨(n, u), List.mem_cons_self _ _, h1.symm⟩
    · obtain ⟨p, hp, hps⟩ := ih (n + 1) a h1
      exact ⟨p, List.mem_cons_of_mem _ hp, hps⟩

theorem assocMember_append_left (xs ys : List Assoc) (e a : Nat)
    (h : assocMember xs e a = true) : assocMember (xs ++ ys) e a = true := by
  unfold assocMember at h ⊢
  rw [List.any_append, h]
  rfl

theorem assocMember_of_mem (assocs : List Assoc) (a : Assoc) (h : a ∈ assocs) :
    assocMember assocs a.entity_id a.artist_id = true := by
  unfold assocMember
  exact List.any_eq_true.mpr ⟨a, h, by simp⟩

/-- Re-running `extend` on the extended table inserts nothing: every incoming
resolvable pair is already present (either it was, or the first run inserted
it). -/
theorem extend_second_run_empty (staging : List AStagingRow) (entities : List EntityRow)
    (artists : List ArtistRow) (assocs : List Assoc) :
    extendInsertRows staging entities artists
      (extendResult staging entities artists assocs) = [] := by
  unfold extendInsertRows
  refine List.flatMap_eq_nil_iff.mpr ?_
  intro s hs
  cases hL : s.artist_uris with
  | none => rfl
  | some L =>
    refine List.flatMap_eq_nil_iff.mpr ?_
    intro e he
    have hnil : ((L.filterMap (resolveArtist artists)).filter
        (fun aid => !assocMember (extendResult staging entities artists assocs) e.id aid))
        = [] := by
      refine List.filter_eq_nil_iff.mpr ?_
      intro aid haid
      have hmem : assocMember (extendResult staging entities artists assocs) e.id aid
          = true := by
        cases hcur : assocMember assocs e.id aid with
        | true => exact assocMember_append_left _ _ _ _ hcur
        | false =>
          have haid2 : aid ∈ (L.filterMap (resolveArtist artists)).filter
              (fun x => !assocMember assocs e.id x) :=
            List.mem_filter.mpr ⟨haid, by simp [hcur]⟩
          obtain ⟨p, hp, hpsnd⟩ := mem_posIndexed_of_mem _ 0 aid haid2
          have hrow : (⟨e.id, p.2, maxPosition assocs e.id + (p.1 : Int) + 1⟩ : Assoc) ∈
              extendInsertRows staging entities artists assocs := by
            unfold extendInsertRows
            refine List.mem_flatMap.mpr ⟨s, hs, ?_⟩
            rw [hL]
            refine List.mem_flatMap.mpr ⟨e, he, ?_⟩
            exact List.mem_map_of_mem _ hp
          have hrow2 : (⟨e.id, p.2, maxPosition assocs e.id + (p.1 : Int) + 1⟩ : Assoc) ∈
              extendResult staging entities artists assocs :=
            List.mem_append_right _ (List.mem_dedup.mpr hrow)
          have hm := assocMember_of_mem _ _ hrow2
          rw [hpsnd] at hm
          exact hm
      simp [hmem]
    rw [hnil]
    rfl

/-- Re-running the `prefer_non_null` association branch inserts nothing: a
touched entity either already had associations, or got all its resolvable
incoming pairs in the first run (so its guard now fails), or had nothing
insertable at all. -/
theorem pnn_second_run_empty (staging : List AStagingRow) (entities : List EntityRow)
    (artists : List ArtistRow) (assocs : List Assoc) :
    pnnInsertRows staging entities artists
      (pnnResult staging entities artists assocs) = [] := by
  unfold pnnInsertRows
  refine List.flatMap_eq_nil_iff.mpr ?_
  intro s hs
  cases hL : s.artist_uris with
  | none => rfl
  | some L =>
    refine List.flatMap_eq_nil_iff.mpr ?_
    intro e he
    by_cases hg : ((pnnResult staging entities artists assocs).any
        (fun a => decide (a.entity_id = e.id))) = true
    · rw [if_pos hg]
    · rw [if_neg hg]
      refine List.eq_nil_iff_forall_not_mem.mpr ?_
      intro a ha
      have hae : a.entity_id = e.id := by
        obtain ⟨p, hp, hf⟩ := List.mem_filterMap.mp ha
        exact assocOfPos_entity artists e.id p a hf
      have hfirstguard : (assocs.any (fun b => decide (b.entity_id = e.id))) = false := by
        cases hb : assocs.any (fun b => decide (b.entity_id = e.id)) with
        | false => rfl
        | true =>
          obtain ⟨b, hbmem, hbp⟩ := List.any_eq_true.mp hb
          exact absurd (List.any_eq_true.mpr ⟨b, List.mem_append_left _ hbmem, hbp⟩) hg
      have hrow : a ∈ pnnInsertRows staging entities artists assocs := by
        unfold pnnInsertRows
        refine List.mem_flatMap.mpr ⟨s, hs, ?_⟩
        rw [hL]
        refine List.mem_flatMap.mpr ⟨e, he, ?_⟩
        rw [if_neg (by rw [hfirstguard]; exact Bool.false_ne_true)]
        exact ha
      have hrow2 : a ∈ pnnResult staging entities artists assocs :=
        List.mem_append_right _ (List.mem_dedup.mpr hrow)
      exact absurd (List.any_eq_true.mpr ⟨a, hrow2, by simp [hae]⟩) hg

theorem upsertGo_error_of_touched (m : List (String × String)) (src ts key : String) :
    ∀ (sel table : List Row) (touched : List String) (r : Row) (k : String),
      r ∈ sel → getCol r key = some k → k ∈ touched →
      upsertGo m src ts key table touched sel = .error affectTwiceMsg := by
  intro sel
  induction sel with
  | nil => intro table touched r k hr _ _; simp at hr
  | cons r0 rest ih =>
    intro table touched r k hr hk hkt
    rcases List.mem_cons.mp hr with h1 | h2
    · subst h1
      simp [upsertGo, hk, hkt]
    · cases hk0 : getCol r0 key with
      | none =>
        rw [show upsertGo m src ts key table touched (r0 :: rest) =
            upsertGo m src ts key (table ++ [r0]) touched rest from by simp [upsertGo, hk0]]
        exact ih _ touched r k h2 hk hkt
      | some k0 =>
        by_cases hk0t : k0 ∈ touched
        · simp [upsertGo, hk0, hk0t]
        · by_cases hany : (table.any (fun mr => decide (getCol mr key = some k0))) = true
          · rw [show upsertGo m src ts key table touched (r0 :: rest) =
                upsertGo m src ts key (table.map (fun mr =>
                  if getCol mr key = some k0 then applySet m src ts mr r0 else mr))
                  (k0 :: touched) rest from by simp [upsertGo, hk0, hk0t, hany]]
            exact ih _ _ r k h2 hk (List.mem_cons_of_mem k0 hkt)
          · rw [show upsertGo m src ts key table touched (r0 :: rest) =
                upsertGo m src ts key (table ++ [r0]) (k0 :: touched) rest from by
              simp [upsertGo, hk0, hk0t, hany]]
            exact ih _ _ r k h2 hk (List.mem_cons_of_mem k0 hkt)

theorem upsertGo_error_of_dup (m : List (String × String)) (src ts key : String) :
    ∀ (sel table : List Row) (touched : List String) (r1 r2 : Row) (k : String),
      r1 ∈ sel → r2 ∈ sel → r1 ≠ r2 →
      getCol r1 key = some k → getCol r2 key = some k →
      upsertGo m src ts key table touched sel = .error affectTwiceMsg := by
  intro sel
  induction sel with
  | nil => intro table touched r1 r2 k h1 _ _ _ _; simp at h1
  | cons r0 rest ih =>
    intro table touched r1 r2 k h1 h2 hne hk1 hk2
    rcases List.mem_cons.mp h1 with e1 | m1
    · rcases List.mem_cons.mp h2 with e2 | m2
      · exact absurd (e1.trans e2.symm) hne
      · subst e1
        by_cases hk0t : k ∈ touched
        · simp [upsertGo, hk1, hk0t]
        · by_cases hany : (table.any (fun mr => decide (getCol mr key = some k))) = true
          · rw [show upsertGo m src ts key table touched (r1 :: rest) =
                upsertGo m src ts key (table.map (fun mr =>
                  if getCol mr key = some k then applySet m src ts mr r1 else mr))
                  (k :: touched) rest from by simp [upsertGo, hk1, hk0t, hany]]
            exact upsertGo_error_of_touched m src ts key rest _ _ r2 k m2 hk2
              (List.mem_cons_self _ _)
          · rw [show upsertGo m src ts key table touched (r1 :: rest) =
                upsertGo m src ts key (table ++ [r1]) (k :: touched) rest from by
              simp [upsertGo, hk1, hk0t, hany]]
            exact upsertGo_error_of_touched m src ts key rest _ _ r2 k m2 hk2
              (List.mem_cons_self _ _)
    · rcases List.mem_cons.mp h2 with e2 | m2
      · subst e2
        by_cases hk0t : k ∈ touched
        · simp [upsertGo, hk2, hk0t]
        · by_cases hany : (table.any (fun mr => decide (getCol mr key = some k))) = true
          · rw [show upsertGo m src ts key table touched (r2 :: rest) =
                upsertGo m src ts key (table.map (fun mr =>
                  if getCol mr key = some k then applySet m src ts mr r2 else mr))
                  (k :: touched) rest from by simp [upsertGo, hk2, hk0t, hany]]
            exact upsertGo_error_of_touched m src ts key rest _ _ r1 k m1 hk1
              (List.mem_cons_self _ _)
          · rw [show upsertGo m src ts key table touched (r2 :: rest) =
                upsertGo m src ts key (table ++ [r2]) (k :: touched) rest from by
              simp [upsertGo, hk2, hk0t, hany]]
            exact upsertGo_error_of_touched m src ts key rest _ _ r1 k m1 hk1
              (List.mem_cons_self _ _)
      · cases hk0 : getCol r0 key with
        | none =>
          rw [show upsertGo m src ts key table touched (r0 :: rest) =
              upsertGo m src ts key (table ++ [r0]) touched rest from by
            simp [upsertGo, hk0]]
          exact ih _ touched r1 r2 k m1 m2 hne hk1 hk2
        | some k0 =>
          by_cases hk0t : k0 ∈ touched
          · simp [upsertGo, hk0, hk0t]
          · by_cases hany : (table.any (fun mr => decide (getCol mr key = some k0))) = true
            · rw [show upsertGo m src ts key table touched (r0 :: rest) =
                  upsertGo m src ts key (table.map (fun mr =>
                    if getCol mr key = some k0 then applySet m src ts mr r0 else mr))
                    (k0 :: touched) rest from by simp [upsertGo, hk0, hk0t, hany]]
              exact ih _ _ r1 r2 k m1 m2 hne hk1 hk2
            · rw [show upsertGo m src ts key table touched (r0 :: rest) =
                  upsertGo m src ts key (table ++ [r0]) (k0 :: touched) rest from by
                simp [upsertGo, hk0, hk0t, hany]]
              exact ih _ _ r1 r2 k m1 m2 hne hk1 hk2

/-! ## Claims -/

/-- Artist ids of the candidate insert rows, in incoming order. -/
theorem artistIds_filterMap (artists : List ArtistRow) (eid : Nat) (L : List String) :
    ∀ n : Nat, (((posIndexed n L).filterMap (assocOfPos artists eid)).map
      (fun a => a.artist_id)) = L.filterMap (resolveArtist artists) := by
  induction L with
  | nil => intro n; simp [posIndexed]
  | cons u us ih =>
    intro n
    cases hr : resolveArtist artists u with
    | none => simp [posIndexed, List.filterMap_cons, assocOfPos, hr, ih (n + 1)]
    | some aid => simp [posIndexed, List.filterMap_cons, assocOfPos, hr, ih (n + 1)]

/-- **C1**: under the `replace` association policy (the code's
`prefer_incoming` branch), for an owning entity matched by a staged row with
artist data the merge (i) deletes exactly the entity's existing associations,
(ii) leaves every other entity's associations untouched, and (iii) makes the
entity's final association set exactly the incoming pairs at their 0-based
list index; with every incoming URI resolvable the insert count equals the
incoming list's length, and with distinct resolved artist ids the inserted
rows respect the one-row-per-(entity, artist) primary key.  Stated for a
single-row batch; the hypotheses scope the claim to its intended inputs. -/
theorem C1_replace_exact (s : AStagingRow) (entities : List EntityRow)
    (artists : List ArtistRow) (assocs : List Assoc) (e : EntityRow) (L : List String)
    (hL : s.artist_uris = some L) (hm : matchedEntities entities s = [e])
    (hres : ∀ u ∈ L, resolveArtist artists u ≠ none)
    (hdistinct : (L.filterMap (resolveArtist artists)).Nodup) :
    deletedByReplace [s] entities assocs =
        assocs.filter (fun a => decide (a.entity_id = e.id)) ∧
    (replaceResult [s] entities artists assocs).filter
        (fun a => decide (a.entity_id = e.id)) =
      (posIndexed 0 L).filterMap (assocOfPos artists e.id) ∧
    (replaceResult [s] entities artists assocs).filter
        (fun a => decide (a.entity_id ≠ e.id)) =
      assocs.filter (fun a => decide (a.entity_id ≠ e.id)) ∧
    ((posIndexed 0 L).filterMap (assocOfPos artists e.id)).length = L.length ∧
    (((posIndexed 0 L).filterMap (assocOfPos artists e.id)).map
      (fun a => a.artist_id)).Nodup := by
  have ht := replaceTouched_single s entities e L hL hm
  have hins := insertedByReplace_single s entities artists e L hL hm
  refine ⟨?_, ?_, ?_, ?_, ?_⟩
  · unfold deletedByReplace
    rw [ht]
    refine List.filter_congr ?_
    intro a ha
    simp
  · unfold replaceResult
    rw [ht, hins, List.filter_append]
    have h1 : (assocs.filter (fun a => decide (a.entity_id ∉ [e.id]))).filter
        (fun a => decide (a.entity_id = e.id)) = [] := by
      rw [List.filter_filter]
      refine List.filter_eq_nil_iff.mpr ?_
      intro a ha
      simp only [List.mem_singleton, Bool.and_eq_true, decide_eq_true_eq, not_and]
      intro h1 h2
      exact absurd h1 h2
    have h2 : ((posIndexed 0 L).filterMap (assocOfPos artists e.id)).filter
        (fun a => decide (a.entity_id = e.id)) =
        (posIndexed 0 L).filterMap (assocOfPos artists e.id) := by
      refine List.filter_eq_self.mpr ?_
      intro a ha
      obtain ⟨p, hp, hf⟩ := List.mem_filterMap.mp ha
      simp [assocOfPos_entity artists e.id p a hf]
    rw [h1, h2, List.nil_append]
  · unfold replaceResult
    rw [ht, hins, List.filter_append]
    have h1 : (assocs.filter (fun a => decide (a.entity_id ∉ [e.id]))).filter
        (fun a => decide (a.entity_id ≠ e.id)) =
        assocs.filter (fun a => decide (a.entity_id ≠ e.id)) := by
      rw [List.filter_filter]
      refine List.filter_congr ?_
      intro a ha
      simp [List.mem_singleton]
    have h2 : ((posIndexed 0 L).filterMap (assocOfPos artists e.id)).filter
        (fun a => decide (a.entity_id ≠ e.id)) = [] := by
      refine List.filter_eq_nil_iff.mpr ?_
      intro a ha
      obtain ⟨p, hp, hf⟩ := List.mem_filterMap.mp ha
      simp [assocOfPos_entity artists e.id p a hf]
    rw [h1, h2, List.append_nil]
  · exact length_filterMap_assocOfPos artists e.id L hres 0
  · rw [artistIds_filterMap artists e.id L 0]
    exact hdistinct

/-- **C1** witness: existing association {X:0} (artist id 10), incoming
[Y, Z] (ids 20, 30): the deleted set is exactly {X:0} (count 1) and the
entity's final associations are exactly {Y:0, Z:1} (count 2). -/
theorem C1_witness :
    resolveArtist [⟨10, some "X", none⟩, ⟨20, some "Y", none⟩, ⟨30, some "Z", none⟩] "Y" =
      some 20 ∧
    deletedByReplace [⟨some "E", some ["Y", "Z"]⟩] [⟨1, some "E"⟩] [⟨1, 10, 0⟩] =
      [⟨1, 10, 0⟩] ∧
    (replaceResult [⟨some "E", some ["Y", "Z"]⟩] [⟨1, some "E"⟩]
        [⟨10, some "X", none⟩, ⟨20, some "Y", none⟩, ⟨30, some "Z", none⟩]
        [⟨1, 10, 0⟩]).filter (fun a => decide (a.entity_id = 1)) =
      [⟨1, 20, 0⟩, ⟨1, 30, 1⟩] ∧
    (deletedByReplace [⟨some "E", some ["Y", "Z"]⟩] [⟨1, some "E"⟩] [⟨1, 10, 0⟩]).length = 1 := by
  have h := C1_replace_exact ⟨some "E", some ["Y", "Z"]⟩ [⟨1, some "E"⟩]
    [⟨10, some "X", none⟩, ⟨20, some "Y", none⟩, ⟨30, some "Z", none⟩]
    [⟨1, 10, 0⟩] ⟨1, some "E"⟩ ["Y", "Z"] rfl (by decide) (by decide) (by decide)
  exact ⟨by decide, h.1.trans (by decide), h.2.1.trans (by decide), by decide⟩

/-- **C5**: under the `extend` association policy the merge deletes nothing —
the final table is the old table with the new rows appended — and inserts
only pairs absent from the current set, each at position
`(current max position) + (1-based rank among the newly inserted artists in
incoming order)`.  Stated for a single-row batch. -/
theorem C5_extend_exact (s : AStagingRow) (entities : List EntityRow)
    (artists : List ArtistRow) (assocs : List Assoc) (e : EntityRow) (L : List String)
    (hL : s.artist_uris = some L) (hm : matchedEntities entities s = [e]) :
    extendResult [s] entities artists assocs =
      assocs ++ (posIndexed 0 ((L.filterMap (resolveArtist artists)).filter
        (fun aid => !assocMember assocs e.id aid))).map
        (fun p => ⟨e.id, p.2, maxPosition assocs e.id + (p.1 : Int) + 1⟩) ∧
    ∀ a ∈ extendInsertRows [s] entities artists assocs,
      assocMember assocs a.entity_id a.artist_id = false := by
  constructor
  · unfold extendResult
    rw [extendInsertRows_single s entities artists assocs e L hL hm,
      List.dedup_eq_self.mpr (nodup_extend_map artists assocs e _)]
  · intro a ha
    rw [extendInsertRows_single s entities artists assocs e L hL hm] at ha
    obtain ⟨p, hp, hfa⟩ := List.mem_map.mp ha
    have h2 : p.2 ∈ (L.filterMap (resolveArtist artists)).filter
        (fun aid => !assocMember assocs e.id aid) := mem_posIndexed_snd _ 0 p hp
    have h3 := (List.mem_filter.mp h2).2
    rw [← hfa]
    simpa using h3

/-- **C5** witness: existing association {X:0}, incoming [Y, Z]: the result
is exactly {X:0, Y:1, Z:2} — nothing deleted, existing position untouched,
new pairs at max-position-plus-rank. -/
theorem C5_witness :
    ((⟨some "E", some ["Y", "Z"]⟩ : AStagingRow).artist_uris = some ["Y", "Z"]) ∧
    extendResult [⟨some "E", some ["Y", "Z"]⟩] [⟨1, some "E"⟩]
        [⟨10, some "X", none⟩, ⟨20, some "Y", none⟩, ⟨30, some "Z", none⟩]
        [⟨1, 10, 0⟩] =
      [⟨1, 10, 0⟩, ⟨1, 20, 1⟩, ⟨1, 30, 2⟩] := by
  have h := C5_extend_exact ⟨some "E", some ["Y", "Z"]⟩ [⟨1, some "E"⟩]
    [⟨10, some "X", none⟩, ⟨20, some "Y", none⟩, ⟨30, some "Z", none⟩]
    [⟨1, 10, 0⟩] ⟨1, some "E"⟩ ["Y", "Z"] rfl (by decide)
  exact ⟨rfl, h.1.trans (by decide)⟩

/-- **C6** counterexample.  The claim says duplicate artist identifiers in
one incoming list collapse to a single association at the first occurrence's
position.  With incoming list [Y, Y] the `replace` insert set instead
contains two rows for the same (entity, artist) pair, at positions 0 and 1 —
`SELECT DISTINCT` does not merge them because their positions differ. -/
theorem C6_counterexample :
    insertedByReplace [⟨some "E", some ["Y", "Y"]⟩] [⟨1, some "E"⟩] [⟨20, some "Y", none⟩] =
      [⟨1, 20, 0⟩, ⟨1, 20, 1⟩] ∧
    ((⟨1, 20, 0⟩ : Assoc) ≠ ⟨1, 20, 1⟩) := by
  exact ⟨by decide, by decide⟩

/-- **C6** (amended): a duplicated artist identifier is **not** collapsed:
each occurrence produces its own insert row, at its own 0-based position, so
the insert set holds two distinct rows for the same (entity, artist) pair —
which the association table's composite primary key then rejects instead of
reconciling. -/
theorem C6_duplicates_not_collapsed (s : AStagingRow) (entities : List EntityRow)
    (artists : List ArtistRow) (e : EntityRow) (L : List String) (u : String)
    (aid i j : Nat)
    (hL : s.artist_uris = some L) (hm : matchedEntities entities s = [e])
    (hres : resolveArtist artists u = some aid)
    (hi : (i, u) ∈ posIndexed 0 L) (hj : (j, u) ∈ posIndexed 0 L) (hij : i ≠ j) :
    (⟨e.id, aid, (i : Int)⟩ : Assoc) ∈ insertedByReplace [s] entities artists ∧
    (⟨e.id, aid, (j : Int)⟩ : Assoc) ∈ insertedByReplace [s] entities artists ∧
    (⟨e.id, aid, (i : Int)⟩ : Assoc) ≠ ⟨e.id, aid, (j : Int)⟩ := by
  rw [insertedByReplace_single s entities artists e L hL hm]
  refine ⟨List.mem_filterMap.mpr ⟨(i, u), hi, by simp [assocOfPos, hres]⟩,
    List.mem_filterMap.mpr ⟨(j, u), hj, by simp [assocOfPos, hres]⟩, ?_⟩
  intro hEq
  apply hij
  have := congrArg Assoc.position hEq
  simpa using this

/-- **C6** witness for the amended statement, at incoming list [Y, Y]. -/
theorem C6_witness :
    resolveArtist [⟨20, some "Y", none⟩] "Y" = some 20 ∧
    (⟨1, 20, 0⟩ : Assoc) ∈
      insertedByReplace [⟨some "E", some ["Y", "Y"]⟩] [⟨1, some "E"⟩] [⟨20, some "Y", none⟩] ∧
    (⟨1, 20, 1⟩ : Assoc) ∈
      insertedByReplace [⟨some "E", some ["Y", "Y"]⟩] [⟨1, some "E"⟩] [⟨20, some "Y", none⟩] := by
  have h := C6_duplicates_not_collapsed ⟨some "E", some ["Y", "Y"]⟩ [⟨1, some "E"⟩]
    [⟨20, some "Y", none⟩] ⟨1, some "E"⟩ ["Y", "Y"] "Y" 20 0 1 rfl (by decide) (by decide)
    (by decide) (by decide) (by decide)
  exact ⟨by decide, h.1, h.2.1⟩

/-- **C7** counterexample.  The claim says the stored value under
`prefer_longer` is the incoming value whenever its length is ≥ the existing
value's length (incoming wins ties).  At the tie `existing = "Alfa"`,
`incoming = "Beta"` (both length 4) the generated `CASE` keeps the existing
value, because its condition is the strict `length(EXCLUDED) > length(old)`. -/
theorem C7_counterexample :
    "Alfa".length ≤ "Beta".length ∧
    resolveColumn "prefer_longer" "name" (some "Alfa") (some "Beta") = some "Alfa" ∧
    (some "Alfa" : Option String) ≠ some "Beta" := by
  refine ⟨by decide, by decide, by decide⟩

/-- **C7** (amended): under `prefer_longer`, for non-NULL existing and
incoming values the stored value is the incoming one exactly when it is
strictly longer; on ties (and whenever the incoming value is not strictly
longer) the existing value is kept. -/
theorem C7_prefer_longer_strict (col e i : String) :
    resolveColumn "prefer_longer" col (some e) (some i) =
      (if e.length < i.length then some i else some e) := by
  simp [resolveColumn, resolvePreferLonger]

/-- **C3** counterexample.  The claim says a column present in the batch with
no policy entry fails the run with a configuration error before execution.
With entity `artists` present in the policy map but carrying no column
entries, and CSV columns `spotify_uri`, `name`, `build_set` silently falls
back to `prefer_incoming` for both columns and succeeds. -/
theorem C3_counterexample :
    (([] : List (String × String)).lookup "name" = none) ∧
    build_set_modes "artists" (updatable_cols "artists" ["spotify_uri", "name"])
        [("artists", ["spotify_uri", "name"])] [("artists", [])] =
      Except.ok [("name", "prefer_incoming"), ("spotify_uri", "prefer_incoming")] := by
  exact ⟨rfl, rfl⟩

/-- **C3** (amended): an entity absent from the policy map raises before any
statement is generated, and association data with no `artists` policy entry
raises likewise; but a *column* present in the batch whose entity policy has
no entry for it does **not** raise — `build_set` silently applies the default
`prefer_incoming` mode to it. -/
theorem C3_policy_lookup (entity col : String) (cols : List String)
    (csv_columns : CsvColumns) (config_policy : PolicyMap)
    (ep : List (String × String)) :
    (config_policy.lookup entity = none →
      build_set_modes entity cols csv_columns config_policy =
        Except.error ("No policy defined for entity: " ++ entity)) ∧
    (config_policy.lookup entity = none → ∃ msg,
      associationBranch entity config_policy = Except.error msg) ∧
    (config_policy.lookup entity = some ep → ep.lookup "artists" = none → ∃ msg,
      associationBranch entity config_policy = Except.error msg) ∧
    (config_policy.lookup entity = some ep → ep.lookup col = none →
      col ∈ cols → col ∈ (csv_columns.lookup entity).getD [] →
      ∃ mods, build_set_modes entity cols csv_columns config_policy = Except.ok mods ∧
        (col, "prefer_incoming") ∈ mods) := by
  refine ⟨?_, ?_, ?_, ?_⟩
  · intro h
    unfold build_set_modes get_policy
    rw [h]
    rfl
  · intro h
    refine ⟨"Association data found for " ++ entity ++ " but no policy defined for " ++
      entity ++ ". Define a policy or remove association data from CSV.", ?_⟩
    simp only [associationBranch, associationPolicyLookup, h]
    rfl
  · intro h h2
    refine ⟨"Association data found for " ++ entity ++ " but no artists policy defined for " ++
      entity ++ ". Define a policy for " ++ entity ++
      ".artists or remove association data from CSV.", ?_⟩
    simp only [associationBranch, associationPolicyLookup, h, h2]
    rfl
  · intro h hcol hc hcsv
    refine ⟨build_set_entries ((csv_columns.lookup entity).getD [])
      (ep.filter (fun p => decide (p.1 ∈ (csv_columns.lookup entity).getD []))) cols, ?_, ?_⟩
    · unfold build_set_modes get_policy
      rw [h]
      rfl
    have hfiltered : (ep.filter
        (fun p => decide (p.1 ∈ (csv_columns.lookup entity).getD []))).lookup col = none :=
      lookup_filter_none col _ ep hcol
    simp only [build_set_entries]
    refine List.mem_filterMap.mpr ⟨col, hc, ?_⟩
    simp [hcsv, hfiltered]

/-- **C3** witness for the amended statement: a wholly-missing entity policy
raises, while entity `artists` with an empty column policy silently produces
`prefer_incoming` assignments. -/
theorem C3_witness :
    build_set_modes "artists" ["name"] [("artists", ["name"])] [] =
      Except.error ("No policy defined for entity: " ++ "artists") ∧
    (∃ mods, build_set_modes "artists" (updatable_cols "artists" ["spotify_uri", "name"])
        [("artists", ["spotify_uri", "name"])] [("artists", [])] = Except.ok mods ∧
      ("name", "prefer_incoming") ∈ mods) := by
  have ha := (C3_policy_lookup "artists" "name" ["name"] [("artists", ["name"])] [] []).1 rfl
  have hb := (C3_policy_lookup "artists" "name"
    (updatable_cols "artists" ["spotify_uri", "name"]) [("artists", ["spotify_uri", "name"])]
    [("artists", [])] []).2.2.2 rfl rfl (by decide) (by decide)
  exact ⟨ha, hb⟩

/-- **C2**: re-running an identical batch with `prefer_non_null` on every
covered column is a no-op the second time — the upsert succeeds the first
time and the second run returns the *same* table (zero new rows and zero
column-value changes), and under both the `extend` and the `prefer_non_null`
association policies the second run's insert set is empty (and neither
branch ever deletes, as their results extend the old table).  Hypotheses:
the batch's distinct selected rows carry pairwise-distinct non-NULL conflict
keys (the staging unique-constraint discipline) and rows are schema-shaped. -/
theorem C2_idempotent (schema insertCols csvCols : List String)
    (m : List (String × String)) (src ts key : String) (table staging : List Row)
    (astaging : List AStagingRow) (entities : List EntityRow) (artists : List ArtistRow)
    (assocs : List Assoc)
    (hschema : schema.Nodup) (hsrcS : "source_name" ∈ schema) (htsS : "ingested_at" ∈ schema)
    (hk1 : key ≠ "source_name") (hk2 : key ≠ "ingested_at")
    (hmnd : (m.map Prod.fst).Nodup) (hmodes : ∀ p ∈ m, p.2 = "prefer_non_null")
    (hmsch : ∀ p ∈ m, p.1 ∈ schema)
    (htw : ∀ r ∈ table, wellFormed schema r)
    (hselkey : ∀ r ∈ selRows schema insertCols csvCols src ts staging, getCol r key ≠ none)
    (hselnd : ((selRows schema insertCols csvCols src ts staging).map
      (fun r => getCol r key)).Nodup) :
    (∃ t1, upsertRows schema insertCols csvCols m src ts key table staging = .ok t1 ∧
      upsertRows schema insertCols csvCols m src ts key t1 staging = .ok t1) ∧
    extendInsertRows astaging entities artists
      (extendResult astaging entities artists assocs) = [] ∧
    pnnInsertRows astaging entities artists
      (pnnResult astaging entities artists assocs) = [] := by
  refine ⟨?_, extend_second_run_empty astaging entities artists assocs,
    pnn_second_run_empty astaging entities artists assocs⟩
  unfold upsertRows
  obtain ⟨t1, h1, h2, _⟩ := upsertGo_idem schema m src ts key hschema hsrcS htsS hk1 hk2
    hmnd hmodes hmsch (selRows schema insertCols csvCols src ts staging) table []
    htw (selRows_wf schema insertCols csvCols src ts staging) hselkey hselnd
    (by intro r hr kk hkk; simp)
    (by
      intro r hr
      obtain ⟨s, hs, rfl⟩ := List.mem_map.mp (List.mem_dedup.mp hr)
      constructor
      · rw [getCol_mkInsertRow schema insertCols src ts s "source_name" hsrcS]
        simp [mkInsertVal]
      · rw [getCol_mkInsertRow schema insertCols src ts s "ingested_at" htsS]
        simp [mkInsertVal])
  exact ⟨t1, h1, h2⟩

/-- **C2** witness: a one-row batch under `prefer_non_null` policies — the
first run inserts the row, the second run leaves the table identical, and the
second-run association insert sets are empty. -/
theorem C2_witness :
    (∃ t1, upsertRows ["spotify_uri", "name", "source_name", "ingested_at"]
        ["name", "spotify_uri"] ["spotify_uri", "name"]
        [("name", "prefer_non_null"), ("spotify_uri", "prefer_non_null")]
        "src" "t" "spotify_uri" [] [[("spotify_uri", some "E"), ("name", some "N")]] =
          .ok t1 ∧
      upsertRows ["spotify_uri", "name", "source_name", "ingested_at"]
        ["name", "spotify_uri"] ["spotify_uri", "name"]
        [("name", "prefer_non_null"), ("spotify_uri", "prefer_non_null")]
        "src" "t" "spotify_uri" t1 [[("spotify_uri", some "E"), ("name", some "N")]] =
          .ok t1) ∧
    extendInsertRows [⟨some "E", some ["Y"]⟩] [⟨1, some "E"⟩] [⟨20, some "Y", none⟩]
      (extendResult [⟨some "E", some ["Y"]⟩] [⟨1, some "E"⟩] [⟨20, some "Y", none⟩] []) = [] ∧
    pnnInsertRows [⟨some "E", some ["Y"]⟩] [⟨1, some "E"⟩] [⟨20, some "Y", none⟩]
      (pnnResult [⟨some "E", some ["Y"]⟩] [⟨1, some "E"⟩] [⟨20, some "Y", none⟩] []) = [] := by
  exact C2_idempotent ["spotify_uri", "name", "source_name", "ingested_at"]
    ["name", "spotify_uri"] ["spotify_uri", "name"]
    [("name", "prefer_non_null"), ("spotify_uri", "prefer_non_null")]
    "src" "t" "spotify_uri" [] [[("spotify_uri", some "E"), ("name", some "N")]]
    [⟨some "E", some ["Y"]⟩] [⟨1, some "E"⟩] [⟨20, some "Y", none⟩] []
    (by decide) (by decide) (by decide) (by decide) (by decide) (by decide)
    (by decide) (by decide) (by simp) (by decide) (by decide)

/-- **C9**: after a successful upsert every row of the entity table has at
least one of `spotify_uri` / `mbid` non-NULL (inserted rows pass the WHERE
identifier guard; a conflicting update preserves the non-NULL conflict-key
column under every policy mode); placeholder artist rows created for
referenced URIs always carry a non-NULL `spotify_uri`; and a staging row
whose identifiers are all NULL fails the generated WHERE clause, so it is
excluded from the upsert rather than inserted. -/
theorem C9_identifier_invariant (entity : String) (csv_columns : CsvColumns)
    (config_policy : PolicyMap) (source timestamp : String) (schema : List String)
    (table staging t1 : List Row)
    (hs : "spotify_uri" ∈ schema) (hmb : "mbid" ∈ schema)
    (hups : ∀ c ∈ updatable_cols entity ((csv_columns.lookup entity).getD []), c ∈ schema)
    (htwf : ∀ r ∈ table, wellFormed schema r)
    (hinv : ∀ r ∈ table, hasIdentifier r)
    (hrun : entityUpsert entity csv_columns config_policy source timestamp schema
      table staging = .ok t1) :
    (∀ r ∈ t1, hasIdentifier r) ∧
    (∀ (astaging : List AStagingRow) (artists : List ArtistRow) (freshId : Nat),
      ∀ a ∈ createMissingArtists astaging artists freshId,
        a ∈ artists ∨ a.spotify_uri ≠ none) ∧
    (∀ s : Row, getCol s "spotify_uri" = none → getCol s "mbid" = none →
      wherePass ((csv_columns.lookup entity).getD []) s = false) := by
  unfold entityUpsert at hrun
  cases hck : conflictKey entity csv_columns with
  | error e =>
    rw [hck] at hrun
    exact Except.noConfusion hrun
  | ok key =>
    rw [hck] at hrun
    have hrunB : Except.bind (build_set_modes entity
        (updatable_cols entity ((csv_columns.lookup entity).getD [])) csv_columns
        config_policy) (fun setModes => upsertRows schema
          (updatable_cols entity ((csv_columns.lookup entity).getD []))
          ((csv_columns.lookup entity).getD []) setModes source timestamp key
          table staging) = .ok t1 := hrun
    cases hbs : build_set_modes entity
        (updatable_cols entity ((csv_columns.lookup entity).getD [])) csv_columns
        config_policy with
    | error e =>
      rw [hbs] at hrunB
      exact Except.noConfusion hrunB
    | ok sm =>
      rw [hbs] at hrunB
      have hrun2 : upsertRows schema
          (updatable_cols entity ((csv_columns.lookup entity).getD []))
          ((csv_columns.lookup entity).getD []) sm source timestamp key table staging =
          .ok t1 := hrunB
      obtain ⟨epf, hsm⟩ := build_set_modes_ok_elim entity _ csv_columns config_policy sm hbs
      have hsub : (sm.map Prod.fst).Sublist
          (updatable_cols entity ((csv_columns.lookup entity).getD [])) := by
        rw [hsm]
        exact build_set_entries_fst_sublist _ epf _
      have hsmnd : (sm.map Prod.fst).Nodup :=
        hsub.nodup (updatable_cols_nodup entity _)
      have hmsch : ∀ p ∈ sm, p.1 ∈ schema := by
        intro p hp
        exact hups p.1 (hsub.subset (List.mem_map_of_mem Prod.fst hp))
      have hkcases := conflictKey_cases entity csv_columns key hck
      have hkid : key = "spotify_uri" ∨ key = "mbid" := by
        rcases hkcases with ⟨h1, _⟩ | ⟨h1, _, _⟩
        · exact Or.inl h1
        · exact Or.inr h1
      have hkey2 : "spotify_uri" ∈ ((csv_columns.lookup entity).getD []) ∨
          "mbid" ∈ ((csv_columns.lookup entity).getD []) := by
        rcases hkcases with ⟨_, h2⟩ | ⟨_, h2, _⟩
        · exact Or.inl h2
        · exact Or.inr h2
      refine ⟨?_, ?_, ?_⟩
      · unfold upsertRows at hrun2
        refine upsertGo_inv schema sm source timestamp key ?_ ?_ ?_ hkid hsmnd hmsch
          _ table [] t1 htwf
          (selRows_wf schema _ _ source timestamp staging)
          hinv
          (selRows_inv schema _ _ source timestamp staging hs hmb
            (spotify_mem_updatable entity _) (mbid_mem_updatable entity _) hkey2)
          hrun2
        · rcases hkid with h | h <;> (rw [h]; decide)
        · rcases hkid with h | h <;> (rw [h]; decide)
        · rcases hkid with h | h <;> (rw [h]; decide)
      · intro astaging artists freshId a ha
        unfold createMissingArtists at ha
        rcases List.mem_append.mp ha with h | h
        · exact Or.inl h
        · right
          obtain ⟨p, hp, hpa⟩ := List.mem_map.mp h
          rw [← hpa]
          simp
      · intro s h1 h2
        unfold wherePass
        rcases hkey2 with h | h
        · simp [h1, h2, h]
        · simp [h1, h2, h]

/-- **C9** witness: a one-row batch keyed by `spotify_uri` inserts a row that
carries its identifier; the invariant holds for the produced table. -/
theorem C9_witness :
    entityUpsert "artists" [("artists", ["spotify_uri", "name"])]
        [("artists", [("name", "prefer_incoming"), ("spotify_uri", "prefer_incoming")])]
        "src" "t" ["spotify_uri", "mbid", "name", "source_name", "ingested_at"]
        [] [[("spotify_uri", some "A"), ("name", some "N")]] =
      Except.ok [[("spotify_uri", some "A"), ("mbid", none), ("name", some "N"),
        ("source_name", some "src"), ("ingested_at", some "t")]] ∧
    hasIdentifier [("spotify_uri", some "A"), ("mbid", none), ("name", some "N"),
      ("source_name", some "src"), ("ingested_at", some "t")] := by
  have h := C9_identifier_invariant "artists" [("artists", ["spotify_uri", "name"])]
    [("artists", [("name", "prefer_incoming"), ("spotify_uri", "prefer_incoming")])]
    "src" "t" ["spotify_uri", "mbid", "name", "source_name", "ingested_at"]
    [] [[("spotify_uri", some "A"), ("name", some "N")]]
    [[("spotify_uri", some "A"), ("mbid", none), ("name", some "N"),
      ("source_name", some "src"), ("ingested_at", some "t")]]
    (by decide) (by decide) (by decide) (by simp) (by simp) rfl
  exact ⟨rfl, h.1 _ (List.mem_singleton.mpr rfl)⟩

/-- **C10**: the upsert's implicit precondition.  Two staging rows that share
the conflict-key value but differ in any selected column survive the
statement's `SELECT DISTINCT` as distinct source rows, so the single
`ON CONFLICT DO UPDATE` statement tries to affect the same target row twice
and the whole upsert aborts with PostgreSQL's affect-row-twice error; and the
staging-table unique constraints added after load never cover `mbid`,
whatever the column set — only `spotify_uri`-keyed batches get the earlier
guard. -/
theorem C10_duplicate_key_aborts (schema insertCols csvCols : List String)
    (m : List (String × String)) (src ts key : String)
    (table staging : List Row) (s1 s2 : Row) (k : String)
    (h1 : s1 ∈ staging) (h2 : s2 ∈ staging)
    (hw1 : wherePass csvCols s1 = true) (hw2 : wherePass csvCols s2 = true)
    (hneq : mkInsertRow schema insertCols src ts s1 ≠ mkInsertRow schema insertCols src ts s2)
    (hk1 : getCol (mkInsertRow schema insertCols src ts s1) key = some k)
    (hk2 : getCol (mkInsertRow schema insertCols src ts s2) key = some k) :
    upsertRows schema insertCols csvCols m src ts key table staging =
      .error affectTwiceMsg ∧
    ∀ columns : List String, "mbid" ∉ stagingUniqueConstraintCols columns := by
  constructor
  · unfold upsertRows
    refine upsertGo_error_of_dup m src ts key _ table []
      (mkInsertRow schema insertCols src ts s1) (mkInsertRow schema insertCols src ts s2) k
      ?_ ?_ hneq hk1 hk2
    · exact List.mem_dedup.mpr (List.mem_map_of_mem _ (List.mem_filter.mpr ⟨h1, hw1⟩))
    · exact List.mem_dedup.mpr (List.mem_map_of_mem _ (List.mem_filter.mpr ⟨h2, hw2⟩))
  · intro columns
    unfold stagingUniqueConstraintCols
    by_cases h : "spotify_uri" ∈ columns
    · rw [if_pos h]
      decide
    · rw [if_neg h]
      decide

/-- **C10** witness: an `mbid`-keyed batch with two rows sharing `mbid` but
differing in `name` aborts the upsert, and the staging table got no unique
constraint. -/
theorem C10_witness :
    upsertRows ["mbid", "name", "source_name", "ingested_at"] ["name", "mbid"]
        ["mbid", "name"] [("name", "prefer_incoming")] "src" "t" "mbid" []
        [[("mbid", some "M"), ("name", some "A")], [("mbid", some "M"), ("name", some "B")]] =
      .error affectTwiceMsg ∧
    stagingUniqueConstraintCols ["mbid", "name"] = [] := by
  have h := C10_duplicate_key_aborts ["mbid", "name", "source_name", "ingested_at"]
    ["name", "mbid"] ["mbid", "name"] [("name", "prefer_incoming")] "src" "t" "mbid" []
    [[("mbid", some "M"), ("name", some "A")], [("mbid", some "M"), ("name", some "B")]]
    [("mbid", some "M"), ("name", some "A")] [("mbid", some "M"), ("name", some "B")] "M"
    (by decide) (by decide) (by decide) (by decide) (by decide) (by decide) (by decide)
  exact ⟨h.1, by decide⟩

/-- **C4**: the merge phase of `CSVLoader.load`.  When any planned statement
fails, the run surfaces a failure identifying the failing statement's index
and leaves the canonical state and the staging relation exactly as before;
when the operator declines, the transaction is likewise rolled back; staging
is never touched by the merge phase; and a reported failure index really is
the first failing statement: all statements before it succeeded and that
statement failed on the state they produced. -/
theorem C4_rollback {σ : Type} (ops : List (MergeOp σ)) (confirm : σ → Bool)
    (st : RunState σ) :
    (∀ i e, applyOps ops 0 st.canonical = .error (i, e) →
      loadMergePhase ops confirm st = (.failed i e, st)) ∧
    (∀ c', applyOps ops 0 st.canonical = .ok c' → confirm c' = false →
      loadMergePhase ops confirm st = (.rolledBack, st)) ∧
    ((loadMergePhase ops confirm st).2.staging = st.staging) ∧
    (∀ (n : Nat) (s : σ) (i : Nat) (e : String), applyOps ops n s = .error (i, e) →
      ∃ (j : Nat) (op : MergeOp σ) (s' : σ), i = n + j ∧ ops[j]? = some op ∧
        applyOps (ops.take j) n s = .ok s' ∧ op s' = .error e) := by
  refine ⟨?_, ?_, ?_, ?_⟩
  · intro i e h
    unfold loadMergePhase
    rw [h]
  · intro c' h hc
    simp [loadMergePhase, h, hc]
  · unfold loadMergePhase
    cases h : applyOps ops 0 st.canonical with
    | error ie => simp
    | ok c' =>
      by_cases hc : confirm c' = true
      · simp [hc]
      · simp [hc]
  · intro n s i e h
    induction ops generalizing n s with
    | nil => exact Except.noConfusion h
    | cons op rest ih =>
      cases hop : op s with
      | error e0 =>
        have hie : n = i ∧ e0 = e := by
          have h2 : (Except.error (n, e0) : Except (Nat × String) σ) = .error (i, e) := by
            rw [← h]
            simp [applyOps, hop]
          have h3 := Except.error.inj h2
          exact ⟨congrArg Prod.fst h3, congrArg Prod.snd h3⟩
        refine ⟨0, op, s, by omega, by simp, rfl, ?_⟩
        rw [hop, hie.2]
      | ok s1 =>
        have h2 : applyOps rest (n + 1) s1 = .error (i, e) := by
          rw [← h]
          simp [applyOps, hop]
        obtain ⟨j, op', s', hij, hget, htake, herr⟩ := ih (n + 1) s1 h2
        refine ⟨j + 1, op', s', by omega, by simpa using hget, ?_, herr⟩
        rw [List.take_succ_cons]
        rw [show applyOps (op :: rest.take j) n s = applyOps (rest.take j) (n + 1) s1 from by
          simp [applyOps, hop]]
        exact htake

/-- **C4** witness: a two-statement plan whose second statement fails — the
outcome is `failed 1`, canonical and staging state are untouched. -/
theorem C4_witness :
    applyOps [fun n => Except.ok (n + 1), fun _ => Except.error "boom"] 0 (0 : Nat) =
      Except.error (1, "boom") ∧
    loadMergePhase [fun n => Except.ok (n + 1), fun _ => Except.error "boom"]
      (fun _ => true) ⟨0, []⟩ = (.failed 1 "boom", ⟨0, []⟩) := by
  have h := (C4_rollback [fun n => Except.ok (n + 1), fun _ => Except.error "boom"]
    (fun _ => true) ⟨0, []⟩).1 1 "boom" rfl
  exact ⟨rfl, h⟩

/-- **C8**: the predictive `prefer_non_null` association count disagrees with
the executed dry run.  Staging holds albums A and B, each crediting artist X;
A already has the association, B does not.  The executed merge (per-entity
`NOT EXISTS`) inserts B's pair — the dry-run before/after diff is +1 — while
the predictive path (`analyze_association_changes`) sees a non-empty global
`current_assocs` set and predicts 0 inserts. -/
theorem C8_prediction_vs_execution :
    predictedPnnInserts [⟨some "A", some ["X"]⟩, ⟨some "B", some ["X"]⟩]
      [⟨1, some "A"⟩, ⟨2, some "B"⟩] [⟨10, some "X", none⟩] [⟨1, 10, 0⟩] = 0 ∧
    (pnnInsertRows [⟨some "A", some ["X"]⟩, ⟨some "B", some ["X"]⟩]
      [⟨1, some "A"⟩, ⟨2, some "B"⟩] [⟨10, some "X", none⟩] [⟨1, 10, 0⟩]).dedup =
      [⟨2, 10, 0⟩] ∧
    (pnnResult [⟨some "A", some ["X"]⟩, ⟨some "B", some ["X"]⟩]
      [⟨1, some "A"⟩, ⟨2, some "B"⟩] [⟨10, some "X", none⟩] [⟨1, 10, 0⟩]).length -
      [(⟨1, 10, 0⟩ : Assoc)].length = 1 := by
  exact ⟨by decide, by decide, by decide⟩

end SpotifyUris
